import Mathlib

/-!
Shape nodes, intersections and prepared hits of the ray tracer.

A shallow embedding of `src/shapes/shape.cpp` (the Shape node: its transform with
the two cached derived matrices, the parent chain, `worldToObject`, `normalToWorld`,
`normalAt`) together with the intersection record, the hit selector and the hit
preparer that `test/TestIntersection.cpp` exercises.

Scalars are the elements of an arbitrary linearly ordered field `K`: the
definitions run on `ℚ` and the theorems also hold on `ℝ`.  The C++ `double`
is idealised to exact arithmetic; rounding is not modelled.

A `std::shared_ptr<const Shape> parent` is modelled by value: a shape carries
its parent shape, so the chains that this embedding can express are the finite
acyclic ones.  Where the pointer itself matters, for what `setParent` lets a
caller build, the shape objects stand at addresses in a `Scene` and the parent
is an address.
-/

namespace Raytracer

/-! ## Tuples, matrices and rays (vec.h, matrix.h, affine_transform.h, ray.h) -/

/-- A `Tuple` is four scalars `x, y, z, w`; points have `w = 1`, vectors `w = 0`. -/
abbrev Tuple (K : Type) := Fin 4 → K

/-- A `Transformation` is a 4×4 matrix. -/
abbrev Transformation (K : Type) := Matrix (Fin 4) (Fin 4) K

/-- The numeric environment the sources take from `<cmath>` and `constmath.h`,
neither of which is under src/: the square root used by `normalize` and the
fixed tolerance `EPSILON` used for the offset points. -/
structure Numeric (K : Type) where
  sqrt : K → K
  epsilon : K

/-- Modelled from the spec: `make_point` of vec.h (not under src/), a tuple
whose homogeneous component is 1. -/
def make_point {K : Type} [Field K] (x y z : K) : Tuple K := ![x, y, z, 1]

/-- Modelled from the spec: `make_vector` of vec.h (not under src/), a tuple
whose homogeneous component is 0. -/
def make_vector {K : Type} [Field K] (x y z : K) : Tuple K := ![x, y, z, 0]

/-- Modelled from the spec: `dot_product` of vec.h (not under src/), the sum of
the componentwise products. -/
def dot_product {K : Type} [Field K] (a b : Tuple K) : K :=
  a 0 * b 0 + a 1 * b 1 + a 2 * b 2 + a 3 * b 3

/-- Modelled from the spec: `magnitude` of vec.h (not under src/). -/
def magnitude {K : Type} [Field K] (nm : Numeric K) (a : Tuple K) : K :=
  nm.sqrt (dot_product a a)

/-- Modelled from the spec: `normalize` of vec.h (not under src/), the tuple
divided by its magnitude. -/
def normalize {K : Type} [Field K] (nm : Numeric K) (a : Tuple K) : Tuple K :=
  fun i => a i / magnitude nm a

/-- Modelled from the spec: `Matrix::invert` of matrix.h (not under src/); §3
calls it the inverse `M⁻¹` of the invertible matrix `M`.  It is computed by
Cramer's rule, the adjugate divided by the determinant. -/
def invert {K : Type} [Field K] (m : Transformation K) : Transformation K :=
  (m.det)⁻¹ • m.adjugate

/-- Modelled from the spec: `Matrix::transpose` of matrix.h (not under src/). -/
def transpose {K : Type} [Field K] (m : Transformation K) : Transformation K :=
  fun i j => m j i

/-- A `Ray` has an origin point and a direction vector (ray.h, not under src/). -/
structure Ray (K : Type) where
  origin : Tuple K
  direction : Tuple K

/-- Modelled from the spec: `Ray::position` of ray.h (not under src/); §4.3
step 1 gives `origin + t * direction`. -/
def Ray.position {K : Type} [Field K] (r : Ray K) (t : K) : Tuple K :=
  fun i => r.origin i + t * r.direction i

/-- Modelled from the spec: `Ray::transform` of ray.h (not under src/): origin
and direction are both multiplied by the matrix. -/
def Ray.transform {K : Type} [Field K] (r : Ray K) (m : Transformation K) : Ray K :=
  { origin := m.mulVec r.origin, direction := m.mulVec r.direction }

/-! ## Shape (shape.h, shape.cpp) -/

/-- The part of `Material` (material.h, not under src/) that the hit preparer
reads: the refractive index. -/
structure Material (K : Type) where
  refractiveIndex : K
deriving DecidableEq

/-- The members of `class Shape` of shape.cpp, and the virtual functions a
concrete shape kind supplies: `typeId` stands for `typeid(*this)`,
`localIntersection` returns the ray parameters of the object-space
intersections and `localNormalAt` the object-space normal. -/
structure Shape (K : Type) where
  typeId : Nat
  localIntersection : Ray K → List K
  localNormalAt : Tuple K → Tuple K
  transformation : Transformation K
  transformationInverse : Transformation K
  transformationInverseTranspose : Transformation K
  material : Material K
  parent : Option (Shape K)
  casts_shadow : Bool

namespace Shape

variable {K : Type} [Field K]

/-- The constructor `Shape::Shape(dummy)` of shape.cpp lines 23-30: the three
matrices are the identity, there is no parent and the shape casts a shadow.
The default `Material` of material.h is taken as the argument `m`. -/
def create (typeId : Nat) (localIntersection : Ray K → List K)
    (localNormalAt : Tuple K → Tuple K) (m : Material K) : Shape K :=
  { typeId := typeId
    localIntersection := localIntersection
    localNormalAt := localNormalAt
    transformation := 1
    transformationInverse := 1
    transformationInverseTranspose := 1
    material := m
    parent := none
    casts_shadow := true }

/-- Transcribes `Shape::getTransformation`, shape.cpp lines 44-46. -/
def getTransformation (s : Shape K) : Transformation K := s.transformation

/-- Transcribes `Shape::getTransformationInverse`, shape.cpp lines 48-50. -/
def getTransformationInverse (s : Shape K) : Transformation K := s.transformationInverse

/-- Transcribes `Shape::setTransformation`, shape.cpp lines 52-68 (the three
overloads have the same body; this one is the overload for
`Transformation&&`, lines 52-56): the transform is stored, then its inverse,
then the transpose of that inverse. -/
def setTransformation (s : Shape K) (t : Transformation K) : Shape K :=
  let s1 := { s with transformation := t }
  let s2 := { s1 with transformationInverse := invert s1.transformation }
  { s2 with transformationInverseTranspose := transpose s2.transformationInverse }

/-- Transcribes the overload `Shape::setTransformation(const Transformation&)`,
shape.cpp lines 58-62. -/
def setTransformationConstRef (s : Shape K) (t : Transformation K) : Shape K :=
  let s1 := { s with transformation := t }
  let s2 := { s1 with transformationInverse := invert s1.transformation }
  { s2 with transformationInverseTranspose := transpose s2.transformationInverse }

/-- Transcribes the overload `Shape::setTransformation(Transformation&)`,
shape.cpp lines 64-68. -/
def setTransformationRef (s : Shape K) (t : Transformation K) : Shape K :=
  let s1 := { s with transformation := t }
  let s2 := { s1 with transformationInverse := invert s1.transformation }
  { s2 with transformationInverseTranspose := transpose s2.transformationInverse }

/-- Transcribes `Shape::getMaterial`, shape.cpp lines 70-76. -/
def getMaterial (s : Shape K) : Material K := s.material

/-- Transcribes `Shape::setMaterial`, shape.cpp lines 78-88. -/
def setMaterial (s : Shape K) (m : Material K) : Shape K := { s with material := m }

/-- Transcribes `Shape::getParent`, shape.cpp lines 90-92. -/
def getParent (s : Shape K) : Option (Shape K) := s.parent

/-- Transcribes `Shape::setParent`, shape.cpp lines 94-96; `none` is `nullptr`. -/
def setParent (s : Shape K) (p : Option (Shape K)) : Shape K := { s with parent := p }

/-- Transcribes `Shape::castsShadow`, shape.cpp lines 98-100. -/
def castsShadow (s : Shape K) : Bool := s.casts_shadow

/-- Transcribes `Shape::setCastsShadow`, shape.cpp lines 102-104. -/
def setCastsShadow (s : Shape K) (b : Bool) : Shape K := { s with casts_shadow := b }

/-- Transcribes `Shape::worldToObject`, shape.cpp lines 121-123:
`transformationInverse * (parent == nullptr ? point : parent->worldToObject(point))`. -/
def worldToObject : Shape K → Tuple K → Tuple K
  | { transformationInverse := inv, parent := none, .. }, point =>
      inv.mulVec point
  | { transformationInverse := inv, parent := some p, .. }, point =>
      inv.mulVec (p.worldToObject point)

/-- Transcribes `Shape::normalToWorld`, shape.cpp lines 125-131: multiply by the
inverse transpose, rebuild a vector from the x, y, z components, normalize it,
and hand it to the parent when there is one. -/
def normalToWorld (nm : Numeric K) : Shape K → Tuple K → Tuple K
  | { transformationInverseTranspose := invT, parent := none, .. }, normal =>
      let n1 := invT.mulVec normal
      normalize nm (make_vector (n1 0) (n1 1) (n1 2))
  | { transformationInverseTranspose := invT, parent := some p, .. }, normal =>
      let n1 := invT.mulVec normal
      p.normalToWorld nm (normalize nm (make_vector (n1 0) (n1 1) (n1 2)))

/-- Transcribes `Shape::normalAt`, shape.cpp lines 114-119. -/
def normalAt (nm : Numeric K) (s : Shape K) (world_point : Tuple K) : Tuple K :=
  let local_point := s.worldToObject world_point
  let local_normal := s.localNormalAt local_point
  s.normalToWorld nm local_normal

/-- Transcribes `Shape::intersect`, shape.cpp lines 106-112: the ray is moved to
object space by the shape's own inverse transform and given to
`localIntersection`. -/
def intersect (s : Shape K) (r0 : Ray K) : List K :=
  let r := r0.transform s.transformationInverse
  s.localIntersection r

/-- The object-to-world map that the round-trip property names; it is not a
function of shape.cpp.  It follows the property's words: the node's own
transform is applied first, then each ancestor's transform up to the root. -/
def objectToWorld : Shape K → Tuple K → Tuple K
  | { transformation := m, parent := none, .. }, point =>
      m.mulVec point
  | { transformation := m, parent := some p, .. }, point =>
      p.objectToWorld (m.mulVec point)

/-- The states of a shape that client code can reach: the constructor followed
by any calls of the four setters of shape.cpp. -/
inductive Reachable : Shape K → Prop
  | create (typeId : Nat) (li : Ray K → List K) (ln : Tuple K → Tuple K) (m : Material K) :
      Reachable (Shape.create typeId li ln m)
  | setTransformation (s : Shape K) (t : Transformation K) :
      Reachable s → Reachable (s.setTransformation t)
  | setMaterial (s : Shape K) (m : Material K) :
      Reachable s → Reachable (s.setMaterial m)
  | setParent (s : Shape K) (p : Option (Shape K)) :
      Reachable s → Reachable (s.setParent p)
  | setCastsShadow (s : Shape K) (b : Bool) :
      Reachable s → Reachable (s.setCastsShadow b)

/-- A parent chain `root = S0, S1, ..., Sk`, root first: the root has no parent
and the parent of each later shape is the shape before it. -/
def IsParentChain (root : Shape K) (rest : List (Shape K)) : Prop :=
  root.parent = none ∧ List.Chain (fun a b => b.parent = some a) root rest

/-- The state `setTransformation` establishes when it is given an invertible
matrix, at the shape and at every ancestor: the determinant is not zero and
the cached inverse is the inverse of the transform. -/
def InvertibleChain : Shape K → Prop
  | { transformation := m, transformationInverse := inv, parent := none, .. } =>
      m.det ≠ 0 ∧ inv = invert m
  | { transformation := m, transformationInverse := inv, parent := some p, .. } =>
      (m.det ≠ 0 ∧ inv = invert m) ∧ p.InvertibleChain

end Shape

/-! ## Intersections and prepared hits (intersection.h, hit.h) -/

/-- A `std::shared_ptr<const Shape>` as an intersection holds it: the address
of the shape object, which is what two references are compared by, and the
shape found there. -/
structure ShapePtr (K : Type) where
  addr : Nat
  target : Shape K

/-- An `Intersection` is the pair of a ray parameter and the shape that
produced it (§3). -/
structure Intersection (K : Type) where
  t : K
  object : ShapePtr K

/-- The prepared hit of §3: the shading bundle `prepareHit` returns.  `point` is
the point the hit hands out, which `getPoint()` reads in the tests: the ray
position offset along the normal, the same tuple as `overPoint`; the ray
position itself is not kept.  `n1` and `n2` are `none` as long as the
containers walk has not assigned them. -/
structure Hit (K : Type) where
  t : K
  object : ShapePtr K
  point : Tuple K
  eyeVector : Tuple K
  normalVector : Tuple K
  reflectVector : Tuple K
  inside : Bool
  overPoint : Tuple K
  underPoint : Tuple K
  n1 : Option K
  n2 : Option K

section HitPreparation

variable {K : Type} [LinearOrderedField K]

/-- One step of the hit selector's scan: an entry with `t ≥ 0` replaces the
candidate when there is none yet or when its `t` is smaller. -/
def hitStep (curr : Option (Intersection K)) (i : Intersection K) :
    Option (Intersection K) :=
  if 0 ≤ i.t then
    match curr with
    | none => some i
    | some c => if i.t < c.t then some i else some c
  else curr

/-- Modelled from the spec: `Intersection::hit` (intersection.cpp is not under
src/).  §4.2: among all entries with `t ≥ 0`, return the one with the smallest
`t`; if none has non-negative `t`, return no hit.  The list is scanned once,
front to back. -/
def Intersection.hit (xs : List (Intersection K)) : Option (Intersection K) :=
  xs.foldl hitStep none

/-- Modelled from the spec: `reflect` of vec.h (not under src/); §4.3 step 6
gives the formula `d − 2·dot(d,n)·n`. -/
def reflect (d n : Tuple K) : Tuple K :=
  fun i => d i - 2 * dot_product d n * n i

/-- Modelled from the spec: the containers rule of §4.3 step 7 (intersection.cpp
is not under src/).  The containers are a list whose head is the top of the
stack.  A shape that is in the containers is removed from them, wherever it
stands, and a shape that is not is pushed.  The shape is looked for in the
whole stack, not only on its top: the expected values of the test "n1 and n2
at various intersections" (TestIntersection.cpp lines 124-153, the fixture of
§8) are the values of this rule, and are not those of a rule that pops only
the top (`containersStepOnTop` below). -/
def containersStep (containers : List (ShapePtr K)) (s : ShapePtr K) :
    List (ShapePtr K) :=
  if containers.any (fun c => decide (c.addr = s.addr)) then
    containers.filter (fun c => decide (c.addr ≠ s.addr))
  else
    s :: containers

/-- The push/pop rule in the words of §4.3 step 7, kept for comparison with
`containersStep`: if the shape is on top of the stack it is popped, otherwise
it is pushed. -/
def containersStepOnTop (containers : List (ShapePtr K)) (s : ShapePtr K) :
    List (ShapePtr K) :=
  match containers with
  | [] => [s]
  | top :: below => if top.addr = s.addr then below else s :: top :: below

/-- Modelled from the spec: the refractive index read off the containers stack
in §4.3 step 7, that of the shape on top, and 1.0 (vacuum) for the empty stack. -/
def topRefractiveIndex : List (ShapePtr K) → K
  | [] => 1
  | top :: _ => top.target.material.refractiveIndex

/-- Whether a list entry is the hit itself: the same parameter and a reference
to the same shape object. -/
def Intersection.isHit (i hit : Intersection K) : Bool :=
  decide (i.t = hit.t) && decide (i.object.addr = hit.object.addr)

/-- Modelled from the spec: the containers walk of §4.3 step 7, as a loop over
the list from its first entry that carries the stack along.  An entry before
the hit only updates the stack; at the hit `n1` is read, the rule is applied to
the hit's shape and `n2` is read, and the walk ends.  When the list holds no
entry that is the hit, nothing is assigned. -/
def refractiveIndices (hit : Intersection K) :
    List (Intersection K) → List (ShapePtr K) → Option (K × K)
  | [], _ => none
  | i :: rest, containers =>
      if i.isHit hit then
        some (topRefractiveIndex containers,
              topRefractiveIndex (containersStep containers hit.object))
      else
        refractiveIndices hit rest (containersStep containers i.object)

/-- The containers walk in the words of §4.3 step 7, kept for comparison with
`refractiveIndices`: the same loop with the rule `containersStepOnTop`. -/
def refractiveIndicesOnTop (hit : Intersection K) :
    List (Intersection K) → List (ShapePtr K) → Option (K × K)
  | [], _ => none
  | i :: rest, containers =>
      if i.isHit hit then
        some (topRefractiveIndex containers,
              topRefractiveIndex (containersStepOnTop containers hit.object))
      else
        refractiveIndicesOnTop hit rest (containersStepOnTop containers i.object)

/-- What the scan of the hit selector knows after the entries `seen`: without a
candidate every entry seen is negative; a candidate is an entry seen, is
non-negative and is minimal among the non-negative entries seen. -/
def HitInvariant (seen : List (Intersection K)) : Option (Intersection K) → Prop
  | none => ∀ x ∈ seen, x.t < 0
  | some h => h ∈ seen ∧ 0 ≤ h.t ∧ ∀ y ∈ seen, 0 ≤ y.t → h.t ≤ y.t

/-- Modelled from the spec: `Intersection::prepareHit` (intersection.cpp is not
under src/), steps 1 to 7 of §4.3 in their order.  The ray position of step 1
is what `normalAt` and the two offsets read.  The point stored in the hit is
the offset point of step 5: the test "The point is offset"
(TestIntersection.cpp lines 105-112) requires `getPoint().z < -1` for the ray
from `(0, 0, -5)` along `+z` and `t = 4`, whose position has `z = -1`. -/
def Intersection.prepareHit (nm : Numeric K) (hit : Intersection K) (ray : Ray K)
    (xs : List (Intersection K)) : Hit K :=
  let position := ray.position hit.t
  let eyeVector : Tuple K := fun i => - ray.direction i
  let normal := hit.object.target.normalAt nm position
  let inside := decide (dot_product normal eyeVector < 0)
  let normalVector : Tuple K := if inside then (fun i => - normal i) else normal
  let overPoint : Tuple K := fun i => position i + normalVector i * nm.epsilon
  let underPoint : Tuple K := fun i => position i - normalVector i * nm.epsilon
  let reflectVector := reflect ray.direction normalVector
  let ns := refractiveIndices hit xs []
  { t := hit.t
    object := hit.object
    point := overPoint
    eyeVector := eyeVector
    normalVector := normalVector
    reflectVector := reflectVector
    inside := inside
    overPoint := overPoint
    underPoint := underPoint
    n1 := ns.map Prod.fst
    n2 := ns.map Prod.snd }

end HitPreparation

/-! ## The shapes and scenes of test/TestIntersection.cpp -/

section Fixtures

variable {K : Type} [LinearOrderedField K]

/-- Modelled from the spec: `Sphere::createSphere` (sphere.h is not under
src/), the unit sphere about the origin with the identity transform; its
object-space normal at a point is the vector from the origin to the point.
Its intersection routine and the default material are arguments. -/
def createSphere (li : Ray K → List K) (m : Material K) : Shape K :=
  Shape.create 1 li (fun p => fun i => p i - make_point (0 : K) 0 0 i) m

/-- Modelled from the spec: `Sphere::createGlassSphere` (sphere.h is not under
src/), a sphere whose material has refractive index 1.5. -/
def createGlassSphere (li : Ray K → List K) : Shape K :=
  createSphere li { refractiveIndex := 3 / 2 }

/-- Modelled from the spec: `Plane::createPlane` (plane.h is not under src/),
the plane `y = 0`, whose object-space normal is `(0, 1, 0)` everywhere. -/
def createPlane (li : Ray K → List K) (m : Material K) : Shape K :=
  Shape.create 2 li (fun _ => make_vector 0 1 0) m

/-- Modelled from the spec: `scale` of transformers.h (not under src/). -/
def scale (x y z : K) : Transformation K :=
  !![x, 0, 0, 0; 0, y, 0, 0; 0, 0, z, 0; 0, 0, 0, 1]

/-- Modelled from the spec: `translation` of transformers.h (not under src/). -/
def translation (x y z : K) : Transformation K :=
  !![1, 0, 0, x; 0, 1, 0, y; 0, 0, 1, z; 0, 0, 0, 1]

/-- A sphere whose intersection routine finds nothing: the scenarios below
hand `prepareHit` their intersections directly, as the tests do. -/
def testSphere : ShapePtr K :=
  { addr := 0, target := createSphere (fun _ => []) { refractiveIndex := 1 } }

/-- The plane of the test "Precomputing the reflection vector". -/
def testPlane : ShapePtr K :=
  { addr := 4, target := createPlane (fun _ => []) { refractiveIndex := 1 } }

/-- The sphere `sphere1` of the test "n1 and n2 at various intersections":
scaled by 2, refractive index 1.5. -/
def sphereA : ShapePtr K :=
  { addr := 1
    target := ((createGlassSphere (fun _ => [])).setTransformation (scale 2 2 2)).setMaterial
      { refractiveIndex := 3 / 2 } }

/-- The sphere `sphere2` of that test: moved by -0.25 along z, refractive index 2. -/
def sphereB : ShapePtr K :=
  { addr := 2
    target := ((createGlassSphere (fun _ => [])).setTransformation
      (translation 0 0 (-(1 / 4)))).setMaterial { refractiveIndex := 2 } }

/-- The sphere `sphere3` of that test: moved by 0.25 along z, refractive index 2.5. -/
def sphereC : ShapePtr K :=
  { addr := 3
    target := ((createGlassSphere (fun _ => [])).setTransformation
      (translation 0 0 (1 / 4))).setMaterial { refractiveIndex := 5 / 2 } }

/-- The sorted list `[A@2, B@2.75, C@3.25, B@4.75, C@5.25, A@6]` of that test. -/
def nestedSpheres : List (Intersection K) :=
  [ { t := 2, object := sphereA }, { t := 11 / 4, object := sphereB },
    { t := 13 / 4, object := sphereC }, { t := 19 / 4, object := sphereB },
    { t := 21 / 4, object := sphereC }, { t := 6, object := sphereA } ]

/-- The entry `B@4.75` at index 3 of that list. -/
def secondB : Intersection K := { t := 19 / 4, object := sphereB }

/-- The three entries of that list before `B@4.75`. -/
def beforeSecondB : List (Intersection K) :=
  [ { t := 2, object := sphereA }, { t := 11 / 4, object := sphereB },
    { t := 13 / 4, object := sphereC } ]

/-- The two entries of that list after `B@4.75`. -/
def afterSecondB : List (Intersection K) :=
  [ { t := 21 / 4, object := sphereC }, { t := 6, object := sphereA } ]

/-- The ray of that test, from `(0, 0, -4)` along `+z`. -/
def nestedRay : Ray K :=
  { origin := make_point 0 0 (-4), direction := make_vector 0 0 1 }

/-- The `(n1, n2)` pair of the prepared hit for the entry at index `idx` of a
list, with the whole list as the sorted list; `none` past the end. -/
def n1n2At (nm : Numeric K) (ray : Ray K) (xs : List (Intersection K)) (idx : Nat) :
    Option (Option K × Option K) :=
  (xs.get? idx).map fun hit =>
    ((Intersection.prepareHit nm hit ray xs).n1, (Intersection.prepareHit nm hit ray xs).n2)

/-- The list `[5, 7, -3, 2]` of the test "The hit is always the lowest
non-negative intersection". -/
def mixedList : List (Intersection ℚ) :=
  [ { t := 5, object := testSphere }, { t := 7, object := testSphere },
    { t := -3, object := testSphere }, { t := 2, object := testSphere } ]

/-- The list `[-1, -2]` of the test "The hit, when all intersections have
negative t". -/
def negativeList : List (Intersection ℚ) :=
  [ { t := -1, object := testSphere }, { t := -2, object := testSphere } ]

/-- A list with an entry at `t = 0`: `[-1, 0, 3]`. -/
def zeroList : List (Intersection ℚ) :=
  [ { t := -1, object := testSphere }, { t := 0, object := testSphere },
    { t := 3, object := testSphere } ]

/-- A numeric environment on `ℚ`: the rational square root, exact on squares,
and a tolerance of 1e-4. -/
def ratNumeric : Numeric ℚ :=
  { sqrt := Rat.sqrt, epsilon := 1 / 10000 }

/-- A root shape, a sphere scaled by 2. -/
def scaledRoot : Shape ℚ :=
  (createSphere (K := ℚ) (fun _ => []) { refractiveIndex := 1 }).setTransformation
    (scale 2 2 2)

/-- A child of `scaledRoot`, a sphere moved by 1 along z. -/
def movedChild : Shape ℚ :=
  ((createSphere (K := ℚ) (fun _ => []) { refractiveIndex := 1 }).setTransformation
    (translation 0 0 1)).setParent (some scaledRoot)

/-- The ray from `(0, 0, -5)` along `+z`. -/
def outsideRay : Ray K :=
  { origin := make_point 0 0 (-5), direction := make_vector 0 0 1 }

/-- The ray from the origin along `+z`. -/
def insideRay : Ray K :=
  { origin := make_point 0 0 0, direction := make_vector 0 0 1 }

/-- The ray of the reflection test, from `(0, 1, -1)` along `(0, -s, s)`. -/
def slantedRay (s : K) : Ray K :=
  { origin := make_point 0 1 (-1), direction := make_vector 0 (-s) s }

end Fixtures

/-! ## Equality of shapes, the normal chain, the Schlick reflectance -/

section ShapeEquality

variable {K : Type} [LinearOrderedField K]

/-- Transcribes the default `Shape::doCompare` of shape.h lines 74-76, which
returns true whatever the other shape is. -/
def Shape.doCompare (_self _other : Shape K) : Bool := true

/-- Transcribes `Shape::operator==`, shape.cpp lines 32-38: the conjunction of
the five tests in the order of the source.  The virtual `doCompare` of the
concrete kind of `*this` is the argument `doCompare`; `typeId` stands for
`typeid`, and `*material == *other.material` compares the material contents. -/
def Shape.operatorEq (doCompare : Shape K → Shape K → Bool) (self other : Shape K) : Bool :=
  decide (self.typeId = other.typeId)
    && decide (self.transformation = other.transformation)
    && decide (self.casts_shadow = other.casts_shadow)
    && decide (self.material = other.material)
    && doCompare self other

/-- Transcribes `Shape::operator!=`, shape.cpp lines 40-42. -/
def Shape.operatorNe (doCompare : Shape K → Shape K → Bool) (self other : Shape K) : Bool :=
  !(Shape.operatorEq doCompare self other)

/-- The work `Shape::normalToWorld` does at one node, shape.cpp lines 126-129:
the vector is multiplied by the node's inverse transpose, a vector is rebuilt
from its x, y, z components, which drops the homogeneous component, and that
vector is normalized. -/
def Shape.normalStep (nm : Numeric K) (s : Shape K) (normal : Tuple K) : Tuple K :=
  let n1 := s.transformationInverseTranspose.mulVec normal
  normalize nm (make_vector (n1 0) (n1 1) (n1 2))

/-- The state of a node whose transform is an invertible affine map that was
stored by `setTransformation`: the determinant is not zero, the last row of
the matrix is `0 0 0 1`, and the two cached matrices are the inverse and the
transpose of the inverse. -/
def Shape.AffineInvertible (s : Shape K) : Prop :=
  s.transformation.det ≠ 0 ∧
  (s.transformation 3 0 = 0 ∧ s.transformation 3 1 = 0 ∧ s.transformation 3 2 = 0 ∧
    s.transformation 3 3 = 1) ∧
  s.transformationInverse = invert s.transformation ∧
  s.transformationInverseTranspose = transpose s.transformationInverse

/-- A property of nodes holds along the parent chain: at the shape and at each
of its ancestors. -/
def Shape.OnChain (P : Shape K → Prop) : Shape K → Prop
  | s@{ parent := none, .. } => P s
  | s@{ parent := some p, .. } => P s ∧ Shape.OnChain P p

/-- A square root in the numeric environment: on the non-negative scalars the
result is non-negative and its square is the argument. -/
def Numeric.IsSqrt (nm : Numeric K) : Prop :=
  ∀ x : K, 0 ≤ x → 0 ≤ nm.sqrt x ∧ nm.sqrt x * nm.sqrt x = x

/-- Modelled from the spec: the reflectance formula of §4.4 on the three
numbers it reads, the cosine of the eye and normal vectors and the two
refractive indices, in the order of the text: for `n1 > n2` the quantity
`sin2_t` is computed and 1.0 is returned at once when it exceeds 1, otherwise
the cosine is replaced by `cos_t`; then `r0` and the result. -/
def schlickValue (nm : Numeric K) (cos n1 n2 : K) : K :=
  let sin2_t := (n1 / n2) ^ 2 * (1 - cos ^ 2)
  if n1 > n2 ∧ sin2_t > 1 then 1
  else
    let cos := if n1 > n2 then nm.sqrt (1 - sin2_t) else cos
    let r0 := ((n1 - n2) / (n1 + n2)) ^ 2
    r0 + (1 - r0) * (1 - cos) ^ 5

/-- Modelled from the spec: `Hit::schlick` (hit.h is not under src/), §4.4:
the formula on `dot(eyeVector, normalVector)`, `n1` and `n2`.  There is no
value when the containers walk has not assigned `n1` and `n2`. -/
def Hit.schlick (nm : Numeric K) (h : Hit K) : Option K :=
  match h.n1, h.n2 with
  | some n1, some n2 => some (schlickValue nm (dot_product h.eyeVector h.normalVector) n1 n2)
  | _, _ => none

end ShapeEquality

/-! ## Shape objects in memory: the parent as a pointer -/

section PointerScene

variable {K : Type} [Field K]

/-- A `Shape` object as it stands in memory, reduced to the two members that
the recursion of `Shape::worldToObject` reads: the cached inverse and the
`parent` pointer, an address or `nullptr`. -/
structure ShapeObject (K : Type) where
  transformationInverse : Transformation K
  parent : Option Nat

/-- A scene: the shape object found at each address. -/
abbrev Scene (K : Type) := Nat → ShapeObject K

/-- The scene in which every shape is as the constructor of shape.cpp lines
23-30 leaves it: identity inverse, `parent(nullptr)`. -/
def Scene.create : Scene K := fun _ => { transformationInverse := 1, parent := none }

/-- Transcribes `Shape::setParent`, shape.cpp lines 94-96, on the shape object
at address `s`: the pointer is stored as it is given. -/
def Scene.setParent (sc : Scene K) (s : Nat) (p : Option Nat) : Scene K :=
  fun a => if a = s then { sc a with parent := p } else sc a

/-- Transcribes what `Shape::setTransformation`, shape.cpp lines 52-56, does
to the cached inverse of the shape object at address `s`. -/
def Scene.setTransformation (sc : Scene K) (s : Nat) (t : Transformation K) : Scene K :=
  fun a => if a = s then { sc a with transformationInverse := invert t } else sc a

/-- The scenes client code can reach from freshly constructed shapes by calls
of `setParent` and `setTransformation`, with any arguments. -/
inductive Scene.Reachable : Scene K → Prop
  | create : Scene.Reachable Scene.create
  | setParent (sc : Scene K) (s : Nat) (p : Option Nat) :
      Scene.Reachable sc → Scene.Reachable (sc.setParent s p)
  | setTransformation (sc : Scene K) (s : Nat) (t : Transformation K) :
      Scene.Reachable sc → Scene.Reachable (sc.setTransformation s t)

/-- Following the parent pointers from address `a` for at most `steps` steps
reaches a shape with no parent. -/
def Scene.reachesRoot (sc : Scene K) : Nat → Nat → Bool
  | 0, a => (sc a).parent.isNone
  | steps + 1, a =>
      match (sc a).parent with
      | none => true
      | some b => Scene.reachesRoot sc steps b

/-- Transcribes `Shape::worldToObject`, shape.cpp lines 121-123, on shape
objects in memory.  The recursion through the parent pointer is bounded by
`fuel` calls; `none` is the answer of a recursion that has not returned within
that bound. -/
def Scene.worldToObject (sc : Scene K) : Nat → Nat → Tuple K → Option (Tuple K)
  | 0, _, _ => none
  | fuel + 1, a, point =>
      match (sc a).parent with
      | none => some ((sc a).transformationInverse.mulVec point)
      | some b =>
          (Scene.worldToObject sc fuel b point).map
            (fun q => (sc a).transformationInverse.mulVec q)

/-- The parent chain that starts at address `a` ends at a shape with no
parent. -/
inductive Scene.Grounded (sc : Scene K) : Nat → Prop
  | root (a : Nat) : (sc a).parent = none → Scene.Grounded sc a
  | child (a b : Nat) : (sc a).parent = some b → Scene.Grounded sc b → Scene.Grounded sc a

/-- The parent chain that starts at address `a` ends at a shape with no parent
and does not pass through the shape at address `s`: `s` is neither `a` nor an
ancestor of `a`. -/
inductive Scene.Avoids (sc : Scene K) (s : Nat) : Nat → Prop
  | root (a : Nat) : a ≠ s → (sc a).parent = none → Scene.Avoids sc s a
  | child (a b : Nat) : a ≠ s → (sc a).parent = some b → Scene.Avoids sc s b →
      Scene.Avoids sc s a

/-- The scenes reached by calls that keep to the discipline `setParent` does
not check: a shape is given no parent, or a parent that is not the shape
itself and does not have the shape among its ancestors. -/
inductive Scene.ReachableGuarded : Scene K → Prop
  | create : Scene.ReachableGuarded Scene.create
  | clearParent (sc : Scene K) (s : Nat) :
      Scene.ReachableGuarded sc → Scene.ReachableGuarded (sc.setParent s none)
  | setParent (sc : Scene K) (s p : Nat) :
      Scene.ReachableGuarded sc → Scene.Avoids sc s p →
      Scene.ReachableGuarded (sc.setParent s (some p))
  | setTransformation (sc : Scene K) (s : Nat) (t : Transformation K) :
      Scene.ReachableGuarded sc → Scene.ReachableGuarded (sc.setTransformation s t)

/-- The scene of one shape that was made its own parent: `s->setParent(s)` on
the shape at address 0. -/
def selfParentScene : Scene ℚ := (Scene.create (K := ℚ)).setParent 0 (some 0)

/-- The scene of two shapes, the shape at address 1 being the parent of the
shape at address 0. -/
def twoShapeScene : Scene ℚ := (Scene.create (K := ℚ)).setParent 0 (some 1)

end PointerScene

/-! ## Further shapes and scenarios -/

section FurtherFixtures

variable {K : Type} [LinearOrderedField K]

/-- A root shape over any field, a sphere scaled by 2. -/
def groupShape : Shape K :=
  (createSphere (K := K) (fun _ => []) { refractiveIndex := 1 }).setTransformation
    (scale 2 2 2)

/-- A child of `groupShape`, a sphere moved by 1 along z. -/
def memberShape : Shape K :=
  ((createSphere (K := K) (fun _ => []) { refractiveIndex := 1 }).setTransformation
    (translation 0 0 1)).setParent (some groupShape)

/-- A root shape moved by 3 along x. -/
def shiftedShape : Shape ℚ :=
  (createSphere (K := ℚ) (fun _ => []) { refractiveIndex := 1 }).setTransformation
    (translation 3 0 0)

/-- A freshly created sphere, without a parent. -/
def plainSphere : Shape ℚ :=
  createSphere (K := ℚ) (fun _ => []) { refractiveIndex := 1 }

/-- The same sphere after `setParent(shiftedShape)`. -/
def adoptedSphere : Shape ℚ := plainSphere.setParent (some shiftedShape)

/-- The glass sphere of the Schlick tests, refractive index 1.5. -/
def glassSphere : ShapePtr K :=
  { addr := 5, target := createGlassSphere (fun _ => []) }

/-- The ray of the test "Schlick approximation under total internal
reflection", from `(0, 0, s)` along `+y`; the test has `s = √2/2`. -/
def innerRay (s : K) : Ray K :=
  { origin := make_point 0 0 s, direction := make_vector 0 1 0 }

/-- The two intersections of that test, at `-s` and `s`. -/
def innerList (s : K) : List (Intersection K) :=
  [ { t := -s, object := glassSphere }, { t := s, object := glassSphere } ]

/-- The hit of that test, the entry at `s`. -/
def innerHit (s : K) : Intersection K := { t := s, object := glassSphere }

/-- The ray of the test "Schlick approximation with a perpendicular viewing
angle", from the origin along `+y`. -/
def centreRay : Ray K :=
  { origin := make_point 0 0 0, direction := make_vector 0 1 0 }

/-- The two intersections of that test, at `-1` and `1`. -/
def centreList : List (Intersection K) :=
  [ { t := -1, object := glassSphere }, { t := 1, object := glassSphere } ]

/-- The hit of that test, the entry at `1`. -/
def centreHit : Intersection K := { t := 1, object := glassSphere }

/-- The ray of the test "Schlick approximation with small angle and n2 > n1",
from `(0, 0.99, -2)` along `+z`. -/
def grazingRay : Ray K :=
  { origin := make_point 0 (99 / 100) (-2), direction := make_vector 0 0 1 }

/-- The hit of that test, at `t = 1.8589`. -/
def grazingHit : Intersection K := { t := 18589 / 10000, object := glassSphere }

/-- The numeric environment with a given square root and a tolerance of 1e-4. -/
def numericWith (sqrt : K → K) : Numeric K :=
  { sqrt := sqrt, epsilon := 1 / 10000 }

end FurtherFixtures

/-! ## The Shape node: cached matrices and the parent chain -/

section ShapeNode

variable {K : Type} [Field K]

theorem invert_one : invert (1 : Transformation K) = 1 := by
  simp [invert]

theorem invert_mul_self (m : Transformation K) (h : m.det ≠ 0) : invert m * m = 1 := by
  unfold invert
  rw [Matrix.smul_mul, Matrix.adjugate_mul, smul_smul, inv_mul_cancel₀ h, one_smul]

theorem invert_mulVec_mulVec (m : Transformation K) (h : m.det ≠ 0) (p : Tuple K) :
    (invert m).mulVec (m.mulVec p) = p := by
  rw [Matrix.mulVec_mulVec, invert_mul_self m h, Matrix.one_mulVec]

theorem worldToObject_root (s : Shape K) (h : s.parent = none) (p : Tuple K) :
    s.worldToObject p = s.transformationInverse.mulVec p := by
  cases s
  simp only at h
  subst h
  simp [Shape.worldToObject]

theorem worldToObject_child (s q : Shape K) (h : s.parent = some q) (p : Tuple K) :
    s.worldToObject p = s.transformationInverse.mulVec (q.worldToObject p) := by
  cases s
  simp only at h
  subst h
  simp [Shape.worldToObject]

theorem objectToWorld_root (s : Shape K) (h : s.parent = none) (p : Tuple K) :
    s.objectToWorld p = s.transformation.mulVec p := by
  cases s
  simp only at h
  subst h
  simp [Shape.objectToWorld]

theorem objectToWorld_child (s q : Shape K) (h : s.parent = some q) (p : Tuple K) :
    s.objectToWorld p = q.objectToWorld (s.transformation.mulVec p) := by
  cases s
  simp only at h
  subst h
  simp [Shape.objectToWorld]

theorem invertibleChain_root (s : Shape K) (h : s.parent = none) :
    s.InvertibleChain ↔
      (s.transformation.det ≠ 0 ∧ s.transformationInverse = invert s.transformation) := by
  cases s
  simp only at h
  subst h
  simp [Shape.InvertibleChain]

theorem invertibleChain_child (s q : Shape K) (h : s.parent = some q) :
    s.InvertibleChain ↔
      ((s.transformation.det ≠ 0 ∧ s.transformationInverse = invert s.transformation) ∧
        q.InvertibleChain) := by
  cases s
  simp only at h
  subst h
  simp [Shape.InvertibleChain]

/-- Induction along the parent reference: a property that holds for every shape
without a parent, and for a shape whenever it holds for its parent, holds for
every shape. -/
theorem parent_induction {F : Type} {P : Shape F → Prop}
    (hroot : ∀ s : Shape F, s.parent = none → P s)
    (hchild : ∀ s q : Shape F, s.parent = some q → P q → P s) : ∀ s : Shape F, P s := by
  intro s
  refine Shape.rec (motive_1 := P) (motive_2 := fun o => ∀ q, o = some q → P q)
    ?_ ?_ ?_ s
  · intro tid li ln m mi mit mat parent cs hparent
    cases parent with
    | none => exact hroot _ rfl
    | some q => exact hchild _ q rfl (hparent q rfl)
  · intro q hq
    cases hq
  · intro v hv q hq
    cases hq
    exact hv

/-- The cached matrices of a reachable shape are the inverse of its transform
and the transpose of that inverse. -/
theorem reachable_cached (s : Shape K) (h : Shape.Reachable s) :
    s.transformationInverse = invert s.transformation ∧
    s.transformationInverseTranspose = transpose s.transformationInverse := by
  induction h with
  | create tid li ln m =>
    constructor
    · simp [Shape.create, invert_one]
    · funext i j
      simp [Shape.create, transpose, Matrix.one_apply, eq_comm]
  | setTransformation s t _ _ => exact ⟨rfl, rfl⟩
  | setMaterial s m _ ih => exact ih
  | setParent s p _ ih => exact ih
  | setCastsShadow s b _ ih => exact ih

/-- Along a parent chain that starts at `a`, the point reaches the last shape
after the cached inverse of every later shape has been applied in turn. -/
theorem worldToObject_chain_from (p : Tuple K) :
    ∀ (rest : List (Shape K)) (a : Shape K) (acc : Tuple K),
      List.Chain (fun x y => y.parent = some x) a rest →
      a.worldToObject p = acc →
      ((a :: rest).getLast (List.cons_ne_nil _ _)).worldToObject p =
        rest.foldl (fun v s => s.transformationInverse.mulVec v) acc := by
  intro rest
  induction rest with
  | nil =>
    intro a acc _ hacc
    simpa using hacc
  | cons b tl ih =>
    intro a acc hchain hacc
    rw [List.chain_cons] at hchain
    have hb : b.worldToObject p = b.transformationInverse.mulVec acc := by
      rw [worldToObject_child b a hchain.1, hacc]
    have := ih b (b.transformationInverse.mulVec acc) hchain.2 hb
    simpa [List.getLast_cons] using this

theorem foldl_cached_eq_invert :
    ∀ (l : List (Shape K)) (acc : Tuple K),
      (∀ s ∈ l, Shape.Reachable s) →
      l.foldl (fun v s => s.transformationInverse.mulVec v) acc =
        l.foldl (fun v s => (invert s.transformation).mulVec v) acc := by
  intro l
  induction l with
  | nil => intro acc _; rfl
  | cons a tl ih =>
    intro acc h
    have ha := (reachable_cached a (h a (List.mem_cons_self _ _))).1
    simp only [List.foldl_cons]
    rw [ha]
    exact ih _ (fun s hs => h s (List.mem_cons_of_mem _ hs))

/-- C4: for every parent chain `root = S0, S1, ..., Sk` of reachable shapes
with transforms `T0, ..., Tk`, and every point `p`, `Sk.worldToObject(p)` is
`Tk⁻¹ * (... * (T1⁻¹ * (T0⁻¹ * p)))`: the inverse transforms of the ancestors
are applied root first and the node's own inverse last; for a shape with no
parent the result is its own inverse transform applied to `p`. -/
theorem worldToObject_parent_chain (root : Shape K) (rest : List (Shape K))
    (hchain : Shape.IsParentChain root rest)
    (hreach : ∀ s ∈ root :: rest, Shape.Reachable s) (p : Tuple K) :
    ((root :: rest).getLast (List.cons_ne_nil _ _)).worldToObject p =
        (root :: rest).foldl (fun v s => (invert s.transformation).mulVec v) p ∧
    root.worldToObject p = (invert root.transformation).mulVec p := by
  have hroot : root.worldToObject p = (invert root.transformation).mulVec p := by
    rw [worldToObject_root root hchain.1,
      (reachable_cached root (hreach root (List.mem_cons_self _ _))).1]
  refine ⟨?_, hroot⟩
  rw [worldToObject_chain_from p rest root _ hchain.2 hroot, List.foldl_cons]
  exact foldl_cached_eq_invert rest _
    (fun s hs => hreach s (List.mem_cons_of_mem _ hs))

theorem scaledRoot_reachable : Shape.Reachable scaledRoot :=
  Shape.Reachable.setTransformation _ _ (Shape.Reachable.create _ _ _ _)

theorem movedChild_reachable : Shape.Reachable movedChild :=
  Shape.Reachable.setParent _ _
    (Shape.Reachable.setTransformation _ _ (Shape.Reachable.create _ _ _ _))

theorem movedChild_chain : Shape.IsParentChain scaledRoot [movedChild] :=
  ⟨rfl, List.Chain.cons rfl List.Chain.nil⟩

theorem det_ne_zero_of_mul_eq_one (m n : Transformation K) (h : m * n = 1) :
    m.det ≠ 0 := by
  intro h0
  have hdet := congrArg Matrix.det h
  rw [Matrix.det_mul, h0, zero_mul, Matrix.det_one] at hdet
  exact zero_ne_one hdet

theorem invert_eq_of_mul_eq_one (m n : Transformation K) (h : m * n = 1) :
    invert m = n := by
  have hdet := det_ne_zero_of_mul_eq_one m n h
  calc invert m = invert m * (m * n) := by rw [h, mul_one]
    _ = (invert m * m) * n := by rw [mul_assoc]
    _ = n := by rw [invert_mul_self m hdet, one_mul]

theorem invert_scale_two : invert (scale (2 : ℚ) 2 2) = scale (1 / 2) (1 / 2) (1 / 2) := by
  apply invert_eq_of_mul_eq_one
  ext i j
  fin_cases i <;> fin_cases j <;>
    simp [scale, Matrix.mul_apply, Fin.sum_univ_four, Matrix.vecHead, Matrix.vecTail]

theorem invert_translation_one :
    invert (translation (0 : ℚ) 0 1) = translation 0 0 (-1) := by
  apply invert_eq_of_mul_eq_one
  ext i j
  fin_cases i <;> fin_cases j <;>
    simp [translation, Matrix.mul_apply, Fin.sum_univ_four, Matrix.vecHead, Matrix.vecTail]

theorem chain_value :
    (invert (translation (0 : ℚ) 0 1)).mulVec
      ((invert (scale (2 : ℚ) 2 2)).mulVec (make_point 2 4 6)) = make_point 1 2 2 := by
  rw [invert_scale_two, invert_translation_one]
  funext i
  fin_cases i <;>
    simp [scale, translation, make_point, Matrix.mulVec, Matrix.dotProduct,
      Fin.sum_univ_four, Matrix.vecHead, Matrix.vecTail] <;> norm_num

/-- Witness of C4 on the chain `scaledRoot, movedChild`: the child sees the
point `(2, 4, 6)` at `translation⁻¹ * (scale⁻¹ * p) = (1, 2, 2)`, and the root
sees it at `scale⁻¹ * p`. -/
theorem worldToObject_parent_chain_witness :
    Shape.IsParentChain scaledRoot [movedChild] ∧
    (∀ s ∈ [scaledRoot, movedChild], Shape.Reachable s) ∧
    movedChild.worldToObject (make_point 2 4 6) = make_point 1 2 2 ∧
    scaledRoot.worldToObject (make_point 2 4 6) =
      (invert (scale (2 : ℚ) 2 2)).mulVec (make_point 2 4 6) :=
  have hreach : ∀ s ∈ [scaledRoot, movedChild], Shape.Reachable s := by
    intro s hs
    simp only [List.mem_cons, List.mem_singleton, List.not_mem_nil, or_false] at hs
    rcases hs with rfl | rfl
    · exact scaledRoot_reachable
    · exact movedChild_reachable
  ⟨movedChild_chain, hreach,
    ((worldToObject_parent_chain scaledRoot [movedChild] movedChild_chain hreach
      (make_point 2 4 6)).1).trans chain_value,
    (worldToObject_parent_chain scaledRoot [movedChild] movedChild_chain hreach
      (make_point 2 4 6)).2⟩

theorem scale_two_det_ne_zero : (scale (2 : ℚ) 2 2).det ≠ 0 := by
  apply det_ne_zero_of_mul_eq_one _ (scale (1 / 2) (1 / 2) (1 / 2))
  ext i j
  fin_cases i <;> fin_cases j <;>
    simp [scale, Matrix.mul_apply, Fin.sum_univ_four, Matrix.vecHead, Matrix.vecTail]

theorem translation_one_det_ne_zero : (translation (0 : ℚ) 0 1).det ≠ 0 := by
  apply det_ne_zero_of_mul_eq_one _ (translation 0 0 (-1))
  ext i j
  fin_cases i <;> fin_cases j <;>
    simp [translation, Matrix.mul_apply, Fin.sum_univ_four, Matrix.vecHead, Matrix.vecTail]

theorem movedChild_invertibleChain : movedChild.InvertibleChain := by
  rw [invertibleChain_child movedChild scaledRoot rfl, invertibleChain_root scaledRoot rfl]
  exact ⟨⟨translation_one_det_ne_zero, rfl⟩, scale_two_det_ne_zero, rfl⟩

/-- C5: round trip.  For every shape whose transform, and whose ancestors'
transforms, are invertible and have the inverse cached that
`setTransformation` stores, and every point `p`,
`worldToObject(objectToWorld(p)) = p`, where `objectToWorld` applies the
node's own transform first and then each ancestor's transform up to the root. -/
theorem worldToObject_objectToWorld (s : Shape K) (h : s.InvertibleChain) (p : Tuple K) :
    s.worldToObject (s.objectToWorld p) = p := by
  revert p h
  refine parent_induction (P := fun s => s.InvertibleChain →
    ∀ p : Tuple K, s.worldToObject (s.objectToWorld p) = p) ?_ ?_ s
  · intro s hs h p
    obtain ⟨hdet, hinv⟩ := (invertibleChain_root s hs).1 h
    rw [objectToWorld_root s hs, worldToObject_root s hs, hinv]
    exact invert_mulVec_mulVec _ hdet p
  · intro s q hs ih h p
    obtain ⟨⟨hdet, hinv⟩, hq⟩ := (invertibleChain_child s q hs).1 h
    rw [objectToWorld_child s q hs, worldToObject_child s q hs, ih hq, hinv]
    exact invert_mulVec_mulVec _ hdet p

/-- Witness of C5 on the child `movedChild` of `scaledRoot`: both transforms
were set by `setTransformation` and are invertible, and the point `(1, 2, 3)`
comes back. -/
theorem worldToObject_objectToWorld_witness :
    movedChild.InvertibleChain ∧
    movedChild.worldToObject (movedChild.objectToWorld (make_point 1 2 3)) =
      make_point 1 2 3 :=
  ⟨movedChild_invertibleChain,
    worldToObject_objectToWorld movedChild movedChild_invertibleChain (make_point 1 2 3)⟩

/-- C6: every shape reachable from the constructor by any sequence of
`setTransformation`, `setMaterial`, `setParent` and `setCastsShadow` calls has
`transformationInverse = invert(transformation)` and
`transformationInverseTranspose = transpose(transformationInverse)`; and after
`setTransformation(T)`, `getTransformation()` is `T` and
`getTransformationInverse()` is `invert(T)`. -/
theorem reachable_matrices_consistent (s : Shape K) (h : Shape.Reachable s)
    (t : Transformation K) :
    (s.transformationInverse = invert s.transformation ∧
      s.transformationInverseTranspose = transpose s.transformationInverse) ∧
    (s.setTransformation t).getTransformation = t ∧
    (s.setTransformation t).getTransformationInverse = invert t ∧
    (s.setTransformation t).transformationInverseTranspose = transpose (invert t) :=
  ⟨reachable_cached s h, rfl, rfl, rfl⟩

/-- Witness of C6 on `movedChild`, which is reached by the constructor,
`setTransformation` and `setParent`. -/
theorem reachable_matrices_consistent_witness :
    Shape.Reachable movedChild ∧
    (movedChild.transformationInverse = invert movedChild.transformation ∧
      movedChild.transformationInverseTranspose =
        transpose movedChild.transformationInverse) ∧
    (movedChild.setTransformation (scale 2 2 2)).getTransformation = scale 2 2 2 ∧
    (movedChild.setTransformation (scale 2 2 2)).getTransformationInverse =
      invert (scale 2 2 2) ∧
    (movedChild.setTransformation (scale 2 2 2)).transformationInverseTranspose =
      transpose (invert (scale 2 2 2)) :=
  ⟨movedChild_reachable,
    reachable_matrices_consistent movedChild movedChild_reachable (scale 2 2 2)⟩

end ShapeNode

/-! ## The hit selector -/

section HitSelector

variable {K : Type} [LinearOrderedField K]

theorem hitInvariant_step (seen : List (Intersection K)) (curr : Option (Intersection K))
    (i : Intersection K) (h : HitInvariant seen curr) :
    HitInvariant (seen ++ [i]) (hitStep curr i) := by
  unfold hitStep
  by_cases hi : 0 ≤ i.t
  · rw [if_pos hi]
    cases curr with
    | none =>
      refine ⟨by simp, hi, ?_⟩
      intro y hy hy0
      rcases List.mem_append.1 hy with hys | hyi
      · exact absurd (h y hys) (not_lt.2 hy0)
      · rw [List.mem_singleton.1 hyi]
    | some c =>
      obtain ⟨hc, hc0, hmin⟩ := h
      by_cases hlt : i.t < c.t
      · simp only [if_pos hlt]
        refine ⟨by simp, hi, ?_⟩
        intro y hy hy0
        rcases List.mem_append.1 hy with hys | hyi
        · exact le_trans (le_of_lt hlt) (hmin y hys hy0)
        · rw [List.mem_singleton.1 hyi]
      · simp only [if_neg hlt]
        refine ⟨List.mem_append_left _ hc, hc0, ?_⟩
        intro y hy hy0
        rcases List.mem_append.1 hy with hys | hyi
        · exact hmin y hys hy0
        · rw [List.mem_singleton.1 hyi]
          exact not_lt.1 hlt
  · rw [if_neg hi]
    cases curr with
    | none =>
      intro x hx
      rcases List.mem_append.1 hx with hxs | hxi
      · exact h x hxs
      · rw [List.mem_singleton.1 hxi]
        exact not_le.1 hi
    | some c =>
      obtain ⟨hc, hc0, hmin⟩ := h
      refine ⟨List.mem_append_left _ hc, hc0, ?_⟩
      intro y hy hy0
      rcases List.mem_append.1 hy with hys | hyi
      · exact hmin y hys hy0
      · rw [List.mem_singleton.1 hyi] at hy0
        exact absurd hy0 hi

theorem hitInvariant_foldl (xs : List (Intersection K)) :
    ∀ (seen : List (Intersection K)) (curr : Option (Intersection K)),
      HitInvariant seen curr → HitInvariant (seen ++ xs) (xs.foldl hitStep curr) := by
  induction xs with
  | nil => intro seen curr h; simpa using h
  | cons i rest ih =>
    intro seen curr h
    have hstep := ih (seen ++ [i]) (hitStep curr i) (hitInvariant_step seen curr i h)
    simpa [List.append_assoc] using hstep

theorem hitInvariant_hit (xs : List (Intersection K)) :
    HitInvariant xs (Intersection.hit xs) := by
  have h := hitInvariant_foldl xs [] none (by intro x hx; simp at hx)
  simpa [Intersection.hit] using h

/-- C1: for every list of intersections, sorted or not: when some entry has
`t ≥ 0`, `hit` returns an entry of the list whose `t` is non-negative and at
most the `t` of every non-negative entry; when every entry has `t < 0` (the
empty list included), `hit` returns no value. -/
theorem hit_lowest_nonnegative (xs : List (Intersection K)) :
    ((∃ x ∈ xs, 0 ≤ x.t) →
      ∃ h, Intersection.hit xs = some h ∧ h ∈ xs ∧ 0 ≤ h.t ∧
        ∀ y ∈ xs, 0 ≤ y.t → h.t ≤ y.t) ∧
    ((∀ x ∈ xs, x.t < 0) → Intersection.hit xs = none) := by
  have hinv := hitInvariant_hit xs
  constructor
  · rintro ⟨x, hx, hx0⟩
    cases hres : Intersection.hit xs with
    | none =>
      rw [hres] at hinv
      exact absurd (hinv x hx) (not_lt.2 hx0)
    | some h =>
      rw [hres] at hinv
      exact ⟨h, rfl, hinv⟩
  · intro hneg
    cases hres : Intersection.hit xs with
    | none => rfl
    | some h =>
      rw [hres] at hinv
      exact absurd (hneg h hinv.1) (not_lt.2 hinv.2.1)

/-- Witness of C1 on the lists of the tests: `[5, 7, -3, 2]` has a hit with the
properties stated, and it is the entry at `t = 2`; `[-1, 0, 3]` has one, the
entry at `t = 0`; `[-1, -2]` and the empty list have none. -/
theorem hit_lowest_nonnegative_witness :
    (∃ h, Intersection.hit mixedList = some h ∧ h ∈ mixedList ∧ 0 ≤ h.t ∧
        ∀ y ∈ mixedList, 0 ≤ y.t → h.t ≤ y.t) ∧
    (Intersection.hit mixedList).map (fun h => h.t) = some 2 ∧
    (∃ h, Intersection.hit zeroList = some h ∧ h ∈ zeroList ∧ 0 ≤ h.t ∧
        ∀ y ∈ zeroList, 0 ≤ y.t → h.t ≤ y.t) ∧
    (Intersection.hit zeroList).map (fun h => h.t) = some 0 ∧
    Intersection.hit negativeList = none ∧
    Intersection.hit ([] : List (Intersection ℚ)) = none :=
  ⟨(hit_lowest_nonnegative mixedList).1
      ⟨{ t := 5, object := testSphere }, by simp [mixedList], by norm_num⟩,
    by norm_num [Intersection.hit, mixedList, hitStep],
    (hit_lowest_nonnegative zeroList).1
      ⟨{ t := 0, object := testSphere }, by simp [zeroList], le_refl _⟩,
    by norm_num [Intersection.hit, zeroList, hitStep],
    (hit_lowest_nonnegative negativeList).2 (by
      intro x hx
      simp only [negativeList, List.mem_cons, List.mem_singleton, List.not_mem_nil,
        or_false] at hx
      rcases hx with rfl | rfl <;> norm_num),
    (hit_lowest_nonnegative ([] : List (Intersection ℚ))).2 (by intro x hx; simp at hx)⟩

end HitSelector

/-! ## The containers walk -/

section ContainersWalk

variable {K : Type} [LinearOrderedField K]

theorem isHit_self (hit : Intersection K) : hit.isHit hit = true := by
  simp [Intersection.isHit]

/-- A shape stands at most once in the containers: the rule keeps the
addresses on the stack distinct, so it does not matter which occurrence a
removal takes. -/
theorem containersStep_nodup {F : Type} (cs : List (ShapePtr F)) (s : ShapePtr F)
    (h : (cs.map fun c => c.addr).Nodup) :
    ((containersStep cs s).map fun c => c.addr).Nodup := by
  unfold containersStep
  split_ifs with hany
  · exact h.sublist (List.Sublist.map _ (List.filter_sublist cs))
  · rw [List.map_cons, List.nodup_cons]
    refine ⟨?_, h⟩
    intro hmem
    obtain ⟨c, hc, hcs⟩ := List.mem_map.1 hmem
    exact hany (List.any_eq_true.2 ⟨c, hc, by simpa using hcs⟩)

theorem containers_foldl_nodup {F : Type} (xs : List (Intersection F)) :
    ∀ cs : List (ShapePtr F), (cs.map fun c => c.addr).Nodup →
      ((xs.foldl (fun cs e => containersStep cs e.object) cs).map fun c => c.addr).Nodup := by
  induction xs with
  | nil => intro cs h; simpa using h
  | cons e rest ih =>
    intro cs h
    simpa using ih _ (containersStep_nodup cs e.object h)

/-- The loop of the containers walk in closed form: the entries before the
first entry that is the hit are folded into the stack, and the two indices are
read around the step for the hit's shape. -/
theorem refractiveIndices_append (hit : Intersection K) (post : List (Intersection K)) :
    ∀ (pre : List (Intersection K)) (containers : List (ShapePtr K)),
      (∀ e ∈ pre, e.isHit hit = false) →
      refractiveIndices hit (pre ++ hit :: post) containers =
        some (topRefractiveIndex (pre.foldl (fun cs e => containersStep cs e.object) containers),
              topRefractiveIndex (containersStep
                (pre.foldl (fun cs e => containersStep cs e.object) containers) hit.object)) := by
  intro pre
  induction pre with
  | nil =>
    intro containers _
    simp [refractiveIndices, isHit_self]
  | cons e rest ih =>
    intro containers hpre
    have he : e.isHit hit = false := hpre e (List.mem_cons_self _ _)
    have hrest : ∀ x ∈ rest, x.isHit hit = false :=
      fun x hx => hpre x (List.mem_cons_of_mem _ hx)
    simp only [List.cons_append, refractiveIndices, he, List.foldl_cons]
    exact ih (containersStep containers e.object) hrest

/-- C2: for the sorted list `[A@2, B@2.75, C@3.25, B@4.75, C@5.25, A@6]` of the
three glass spheres with refractive indices 1.5, 2.0 and 2.5, `prepareHit`
applied to the entries at index 0 to 5, with the whole list as the sorted
list, yields the `(n1, n2)` pairs (1.0,1.5), (1.5,2.0), (2.0,2.5), (2.5,2.5),
(2.5,1.5), (1.5,1.0), in that order. -/
theorem prepareHit_nested_spheres (nm : Numeric K) :
    (List.range 6).map (n1n2At nm nestedRay nestedSpheres) =
      [some (some 1, some (3 / 2)), some (some (3 / 2), some 2),
       some (some 2, some (5 / 2)), some (some (5 / 2), some (5 / 2)),
       some (some (5 / 2), some (3 / 2)), some (some (3 / 2), some 1)] := by
  simp [List.range, List.range.loop, n1n2At, nestedSpheres, Intersection.prepareHit,
    refractiveIndices, Intersection.isHit, containersStep, topRefractiveIndex,
    sphereA, sphereB, sphereC, Shape.setMaterial]
  norm_num

/-- C3, as stated, fails: on the sorted list of the three glass spheres, at the
hit `B@4.75` (index 3), the walk that pops a shape only when it is on top of
the stack pushes `B` a second time and reads `n2 = 2.0`, whereas `prepareHit`
gives `n2 = 2.5`, the value the test "n1 and n2 at various intersections"
requires. -/
theorem containers_walk_on_top_counterexample :
    refractiveIndicesOnTop secondB (nestedSpheres (K := ℚ)) [] = some (5 / 2, 2) ∧
    (Intersection.prepareHit ratNumeric secondB nestedRay nestedSpheres).n2 = some (5 / 2) ∧
    (Intersection.prepareHit ratNumeric secondB nestedRay nestedSpheres).n2 ≠
      (refractiveIndicesOnTop secondB (nestedSpheres (K := ℚ)) []).map Prod.snd := by
  have h1 : refractiveIndicesOnTop secondB (nestedSpheres (K := ℚ)) [] = some (5 / 2, 2) := by
    simp [nestedSpheres, secondB, refractiveIndicesOnTop, Intersection.isHit,
      containersStepOnTop, topRefractiveIndex, sphereA, sphereB, sphereC, Shape.setMaterial]
    norm_num
  have h2 : (Intersection.prepareHit ratNumeric secondB nestedRay nestedSpheres).n2 =
      some (5 / 2) := by
    simp [nestedSpheres, secondB, Intersection.prepareHit, refractiveIndices,
      Intersection.isHit, containersStep, topRefractiveIndex, sphereA, sphereB, sphereC,
      Shape.setMaterial]
    norm_num
  refine ⟨h1, h2, ?_⟩
  rw [h1, h2]
  norm_num

/-- C3, amended: for every intersection list `pre ++ hit :: post` in which no
entry of `pre` is the hit, `prepareHit` computes `n1` and `n2` by the containers
walk that starts from the empty stack and, for each entry before the hit,
removes the entry's shape from the stack when the shape is in the stack, at
whatever depth, and pushes it otherwise; `n1` is the refractive index of the
shape on top of the stack at the hit (1.0 for the empty stack), the same rule
is applied to the hit's shape, and `n2` is the refractive index of the shape
then on top (1.0 for the empty stack). -/
theorem prepareHit_containers_walk (nm : Numeric K) (ray : Ray K) (hit : Intersection K)
    (pre post : List (Intersection K)) (hpre : ∀ e ∈ pre, e.isHit hit = false) :
    (Intersection.prepareHit nm hit ray (pre ++ hit :: post)).n1 =
      some (topRefractiveIndex (pre.foldl (fun cs e => containersStep cs e.object) [])) ∧
    (Intersection.prepareHit nm hit ray (pre ++ hit :: post)).n2 =
      some (topRefractiveIndex (containersStep
        (pre.foldl (fun cs e => containersStep cs e.object) []) hit.object)) ∧
    (∀ (cs : List (ShapePtr K)) (s : ShapePtr K),
      ((∃ c ∈ cs, c.addr = s.addr) →
        containersStep cs s = cs.filter (fun c => decide (c.addr ≠ s.addr))) ∧
      ((∀ c ∈ cs, c.addr ≠ s.addr) → containersStep cs s = s :: cs)) := by
  have h := refractiveIndices_append hit post pre [] hpre
  refine ⟨?_, ?_, ?_⟩
  · simp [Intersection.prepareHit, h]
  · simp [Intersection.prepareHit, h]
  · intro cs s
    constructor
    · rintro ⟨c, hc, hcs⟩
      have hany : cs.any (fun c => decide (c.addr = s.addr)) = true :=
        List.any_eq_true.2 ⟨c, hc, by simpa using hcs⟩
      simp only [containersStep, hany, if_true]
    · intro hall
      have hany : cs.any (fun c => decide (c.addr = s.addr)) = false := by
        rw [List.any_eq_false]
        intro c hc
        simpa using hall c hc
      simp [containersStep, hany]

/-- Witness of the amended C3 at index 3 of the list of the three glass
spheres: no entry before `B@4.75` is that hit, `n1` and `n2` are read off the
stack the three entries before it leave, both are 2.5, and the rule removes `B`
from under `C` and pushes `B` onto `[A]`. -/
theorem prepareHit_containers_walk_witness :
    (∀ e ∈ (beforeSecondB : List (Intersection ℚ)), e.isHit secondB = false) ∧
    (Intersection.prepareHit ratNumeric secondB nestedRay
        (beforeSecondB ++ secondB :: afterSecondB)).n1 =
      some (topRefractiveIndex
        ((beforeSecondB : List (Intersection ℚ)).foldl
          (fun cs e => containersStep cs e.object) [])) ∧
    (Intersection.prepareHit ratNumeric secondB nestedRay
        (beforeSecondB ++ secondB :: afterSecondB)).n2 =
      some (topRefractiveIndex (containersStep
        ((beforeSecondB : List (Intersection ℚ)).foldl
          (fun cs e => containersStep cs e.object) []) secondB.object)) ∧
    topRefractiveIndex ((beforeSecondB : List (Intersection ℚ)).foldl
        (fun cs e => containersStep cs e.object) []) = 5 / 2 ∧
    topRefractiveIndex (containersStep
        ((beforeSecondB : List (Intersection ℚ)).foldl
          (fun cs e => containersStep cs e.object) []) secondB.object) = 5 / 2 ∧
    containersStep [sphereC, sphereB, (sphereA : ShapePtr ℚ)] sphereB =
      ([sphereC, sphereB, sphereA] : List (ShapePtr ℚ)).filter
        (fun c => decide (c.addr ≠ (sphereB : ShapePtr ℚ).addr)) ∧
    containersStep [(sphereA : ShapePtr ℚ)] sphereB = [sphereB, sphereA] :=
  have hpre : ∀ e ∈ (beforeSecondB : List (Intersection ℚ)), e.isHit secondB = false := by
    intro e he
    simp only [beforeSecondB, List.mem_cons, List.mem_singleton, List.not_mem_nil,
      or_false] at he
    rcases he with rfl | rfl | rfl <;> simp [Intersection.isHit, secondB] <;> norm_num
  ⟨hpre,
    (prepareHit_containers_walk ratNumeric nestedRay secondB beforeSecondB afterSecondB
      hpre).1,
    (prepareHit_containers_walk ratNumeric nestedRay secondB beforeSecondB afterSecondB
      hpre).2.1,
    by norm_num [beforeSecondB, containersStep, topRefractiveIndex, sphereA, sphereB, sphereC,
      Shape.setMaterial],
    by norm_num [beforeSecondB, secondB, containersStep, topRefractiveIndex, sphereA, sphereB,
      sphereC, Shape.setMaterial],
    ((prepareHit_containers_walk ratNumeric nestedRay secondB beforeSecondB afterSecondB
      hpre).2.2 [sphereC, sphereB, sphereA] sphereB).1
        ⟨sphereB, by simp, rfl⟩,
    ((prepareHit_containers_walk ratNumeric nestedRay secondB beforeSecondB afterSecondB
      hpre).2.2 [sphereA] sphereB).2 (by
        intro c hc
        rw [List.mem_singleton.1 hc]
        simp [sphereA, sphereB])⟩

end ContainersWalk

/-! ## The prepared hit -/

section PreparedHit

variable {K : Type} [LinearOrderedField K]

theorem ratNumeric_sqrt_one : ratNumeric.sqrt 1 = 1 := by
  have h := Rat.sqrt_eq 1
  simp only [mul_one, abs_one] at h
  exact h

/-- On the unit sphere with the identity transform and no parent, the normal at
a point is the normalized vector of the point's x, y, z components. -/
theorem normalAt_testSphere (nm : Numeric K) (p : Tuple K) :
    (testSphere (K := K)).target.normalAt nm p =
      Raytracer.normalize nm (make_vector (p 0) (p 1) (p 2)) := by
  simp [Shape.normalAt, testSphere, createSphere, Shape.create, Shape.worldToObject,
    Shape.normalToWorld, make_point]

/-- On the plane with the identity transform and no parent, the normal is the
normalized vector `(0, 1, 0)` at every point. -/
theorem normalAt_testPlane (nm : Numeric K) (p : Tuple K) :
    (testPlane (K := K)).target.normalAt nm p =
      Raytracer.normalize nm (make_vector 0 1 0) := by
  simp [Shape.normalAt, testPlane, createPlane, Shape.create, Shape.worldToObject,
    Shape.normalToWorld, make_vector]

theorem normalize_z_axis (nm : Numeric K) (hs : nm.sqrt 1 = 1) (z : K) (hz : z * z = 1) :
    Raytracer.normalize nm (make_vector 0 0 z) = make_vector 0 0 z := by
  funext i
  fin_cases i <;>
    simp [Raytracer.normalize, magnitude, dot_product, make_vector, hz, hs]

theorem normalize_y_axis (nm : Numeric K) (hs : nm.sqrt 1 = 1) :
    Raytracer.normalize nm (make_vector (0 : K) 1 0) = make_vector 0 1 0 := by
  funext i
  fin_cases i <;>
    simp [Raytracer.normalize, magnitude, dot_product, make_vector, hs]

theorem position_outsideRay : (outsideRay (K := K)).position 4 = make_point 0 0 (-1) := by
  funext i
  fin_cases i <;> simp [Ray.position, outsideRay, make_point, make_vector]
  norm_num

theorem position_insideRay : (insideRay (K := K)).position 1 = make_point 0 0 1 := by
  funext i
  fin_cases i <;> simp [Ray.position, insideRay, make_point, make_vector]

/-- The normal of the unit sphere where the ray from `(0, 0, -5)` along `+z`
meets it at `t = 4`. -/
theorem normal_outside (nm : Numeric K) (hs : nm.sqrt 1 = 1) :
    (testSphere (K := K)).target.normalAt nm ((outsideRay (K := K)).position 4) =
      make_vector 0 0 (-1) := by
  rw [position_outsideRay, normalAt_testSphere]
  simpa [make_point] using normalize_z_axis nm hs (-1) (by norm_num)

/-- The normal of the unit sphere where the ray from the origin along `+z`
meets it at `t = 1`. -/
theorem normal_inside (nm : Numeric K) (hs : nm.sqrt 1 = 1) :
    (testSphere (K := K)).target.normalAt nm ((insideRay (K := K)).position 1) =
      make_vector 0 0 1 := by
  rw [position_insideRay, normalAt_testSphere]
  simpa [make_point] using normalize_z_axis nm hs 1 (by norm_num)

theorem dot_product_neg_left (a b : Tuple K) :
    dot_product (fun i => - a i) b = - dot_product a b := by
  simp only [dot_product]
  ring

/-- The prepared normal of the outside scenario. -/
theorem prepared_outside (nm : Numeric K) (hs : nm.sqrt 1 = 1) (xs : List (Intersection K)) :
    (Intersection.prepareHit nm { t := 4, object := testSphere } outsideRay xs).inside = false ∧
    (Intersection.prepareHit nm { t := 4, object := testSphere } outsideRay xs).normalVector =
      make_vector 0 0 (-1) := by
  have hdot : ¬ dot_product (make_vector (0 : K) 0 (-1))
      (fun i => - (outsideRay (K := K)).direction i) < 0 := by
    simp [dot_product, make_vector, outsideRay]
  constructor
  · simp only [Intersection.prepareHit, normal_outside nm hs]
    simpa using hdot
  · simp only [Intersection.prepareHit, normal_outside nm hs]
    rw [if_neg (by simpa using hdot)]

/-- The prepared normal of the inside scenario. -/
theorem prepared_inside (nm : Numeric K) (hs : nm.sqrt 1 = 1) (xs : List (Intersection K)) :
    (Intersection.prepareHit nm { t := 1, object := testSphere } insideRay xs).inside = true ∧
    (Intersection.prepareHit nm { t := 1, object := testSphere } insideRay xs).normalVector =
      make_vector 0 0 (-1) := by
  have hdot : dot_product (make_vector (0 : K) 0 1)
      (fun i => - (insideRay (K := K)).direction i) < 0 := by
    simp [dot_product, make_vector, insideRay]
  constructor
  · simp only [Intersection.prepareHit, normal_inside nm hs]
    simpa using hdot
  · simp only [Intersection.prepareHit, normal_inside nm hs]
    rw [if_pos (by simpa using hdot)]
    funext i
    fin_cases i <;> simp [make_vector]

/-- C7: for every hit and ray, `prepareHit` sets `inside = (dot(N, eye) < 0)`
where `N = hit.shape.normalAt(point)`, taken at the ray position
`ray.position(t)` of step 1, is the normal before any negation, and returns `normalVector = -N` when inside and `N` otherwise; consequently
`dot(normalVector, eyeVector) ≥ 0`.  On the unit sphere, when the square root
of 1 is 1, the ray from `(0, 0, -5)` along `+z` gives `inside = false` and
normal `(0, 0, -1)`, and the ray from the origin gives `inside = true` and
normal `(0, 0, -1)`. -/
theorem prepareHit_inside_normal (nm : Numeric K) (hit : Intersection K) (ray : Ray K)
    (xs : List (Intersection K)) :
    ((Intersection.prepareHit nm hit ray xs).inside =
        decide (dot_product
          (hit.object.target.normalAt nm (ray.position hit.t))
          (Intersection.prepareHit nm hit ray xs).eyeVector < 0)) ∧
    ((Intersection.prepareHit nm hit ray xs).normalVector =
        if (Intersection.prepareHit nm hit ray xs).inside = true then
          - hit.object.target.normalAt nm (ray.position hit.t)
        else
          hit.object.target.normalAt nm (ray.position hit.t)) ∧
    0 ≤ dot_product (Intersection.prepareHit nm hit ray xs).normalVector
          (Intersection.prepareHit nm hit ray xs).eyeVector ∧
    (nm.sqrt 1 = 1 →
      ((Intersection.prepareHit nm { t := 4, object := testSphere } outsideRay []).inside = false ∧
        (Intersection.prepareHit nm { t := 4, object := testSphere } outsideRay []).normalVector =
          make_vector 0 0 (-1)) ∧
      ((Intersection.prepareHit nm { t := 1, object := testSphere } insideRay []).inside = true ∧
        (Intersection.prepareHit nm { t := 1, object := testSphere } insideRay []).normalVector =
          make_vector 0 0 (-1))) := by
  refine ⟨rfl, ?_, ?_, fun hs => ⟨prepared_outside nm hs [], prepared_inside nm hs []⟩⟩
  · simp only [Intersection.prepareHit, decide_eq_true_eq]
    split_ifs <;> rfl
  · simp only [Intersection.prepareHit, decide_eq_true_eq]
    split_ifs with h
    · rw [dot_product_neg_left]
      exact le_of_lt (neg_pos.2 h)
    · exact not_lt.1 h

/-- Witness of C7 on `ℚ` with the rational square root. -/
theorem prepareHit_inside_normal_witness :
    ratNumeric.sqrt 1 = 1 ∧
    ((Intersection.prepareHit ratNumeric { t := 4, object := testSphere }
        outsideRay []).inside = false ∧
      (Intersection.prepareHit ratNumeric { t := 4, object := testSphere }
        outsideRay []).normalVector = make_vector 0 0 (-1)) ∧
    ((Intersection.prepareHit ratNumeric { t := 1, object := testSphere }
        insideRay []).inside = true ∧
      (Intersection.prepareHit ratNumeric { t := 1, object := testSphere }
        insideRay []).normalVector = make_vector 0 0 (-1)) :=
  ⟨ratNumeric_sqrt_one,
    (prepareHit_inside_normal ratNumeric { t := 4, object := testSphere } outsideRay []).2.2.2
      ratNumeric_sqrt_one⟩

theorem overPoint_apply (nm : Numeric K) (hit : Intersection K) (ray : Ray K)
    (xs : List (Intersection K)) (i : Fin 4) :
    (Intersection.prepareHit nm hit ray xs).overPoint i =
      ray.position hit.t i +
        (Intersection.prepareHit nm hit ray xs).normalVector i * nm.epsilon := rfl

theorem underPoint_apply (nm : Numeric K) (hit : Intersection K) (ray : Ray K)
    (xs : List (Intersection K)) (i : Fin 4) :
    (Intersection.prepareHit nm hit ray xs).underPoint i =
      ray.position hit.t i -
        (Intersection.prepareHit nm hit ray xs).normalVector i * nm.epsilon := rfl

theorem reflectVector_eq (nm : Numeric K) (hit : Intersection K) (ray : Ray K)
    (xs : List (Intersection K)) :
    (Intersection.prepareHit nm hit ray xs).reflectVector =
      reflect ray.direction (Intersection.prepareHit nm hit ray xs).normalVector := rfl

theorem point_eq_overPoint (nm : Numeric K) (hit : Intersection K) (ray : Ray K)
    (xs : List (Intersection K)) :
    (Intersection.prepareHit nm hit ray xs).point =
      (Intersection.prepareHit nm hit ray xs).overPoint := rfl

theorem position_eq (ray : Ray K) (t : K) :
    ray.position t = ray.origin + t • ray.direction := by
  funext i
  simp [Ray.position]

/-- The over point of the outside scenario: the position `(0, 0, -1)` moved by
`ε` along the normal `(0, 0, -1)`. -/
theorem overPoint_outside (nm : Numeric K) (hs : nm.sqrt 1 = 1) (xs : List (Intersection K)) :
    (Intersection.prepareHit nm { t := 4, object := testSphere } outsideRay xs).overPoint =
      make_point 0 0 (-1 - nm.epsilon) := by
  funext i
  rw [overPoint_apply, (prepared_outside nm hs xs).2]
  have hp : (outsideRay (K := K)).position
      ({ t := 4, object := testSphere } : Intersection K).t = make_point 0 0 (-1) :=
    position_outsideRay
  rw [hp]
  fin_cases i <;> simp [make_point, make_vector]
  ring

/-- C8, as stated, fails: for the ray from `(0, 0, -5)` along `+z` and the hit
at `t = 4` on the unit sphere, `ray.origin + t * ray.direction` is
`(0, 0, -1)`, while the point of the prepared hit has `z = -1.0001 < -1`, as
the test "The point is offset" requires of `getPoint()`: the hit carries the
offset point, not the ray position. -/
theorem prepareHit_point_counterexample :
    ((outsideRay (K := ℚ)).origin + (4 : ℚ) • (outsideRay (K := ℚ)).direction) 2 = -1 ∧
    (Intersection.prepareHit ratNumeric { t := 4, object := testSphere }
      outsideRay []).point 2 = -(10001 / 10000) ∧
    (Intersection.prepareHit ratNumeric { t := 4, object := testSphere }
      outsideRay []).point 2 < -1 ∧
    (Intersection.prepareHit ratNumeric { t := 4, object := testSphere }
      outsideRay []).point ≠
      (outsideRay (K := ℚ)).origin + (4 : ℚ) • (outsideRay (K := ℚ)).direction ∧
    (Intersection.prepareHit ratNumeric { t := 4, object := testSphere }
      outsideRay []).point ≠ make_point 0 0 (-1) := by
  have hz : (Intersection.prepareHit ratNumeric { t := 4, object := testSphere }
      outsideRay []).point 2 = -(10001 / 10000) := by
    rw [point_eq_overPoint, overPoint_outside ratNumeric ratNumeric_sqrt_one]
    norm_num [make_point, ratNumeric]
  have hpos : ((outsideRay (K := ℚ)).origin + (4 : ℚ) • (outsideRay (K := ℚ)).direction) 2 = -1 := by
    norm_num [outsideRay, make_point, make_vector]
  refine ⟨hpos, hz, ?_, ?_, ?_⟩
  · rw [hz]
    norm_num
  · intro h
    have h2 := congrFun h 2
    rw [hz, hpos] at h2
    norm_num at h2
  · intro h
    have h2 := congrFun h 2
    rw [hz] at h2
    norm_num [make_point] at h2

/-- C8, amended: for every hit with parameter `t` and every ray, the point of
the prepared hit is `ray.origin + t * ray.direction + ε * normalVector`, the
ray position offset along the eye-facing normal by the tolerance `ε` (it is
the over point); its eye vector is `-ray.direction`, and its `t` and shape are
those of the hit.  Origin `(0, 0, -5)`, direction `(0, 0, 1)` and `t = 4` give
the eye vector `(0, 0, -1)` and, on the unit sphere when the square root of 1
is 1, the point `(0, 0, -1 - ε)`, whose `z` lies in `(-1.1, -1)` for
`0 < ε < 0.1`. -/
theorem prepareHit_offset_point_eye (nm : Numeric K) (hit : Intersection K) (ray : Ray K)
    (xs : List (Intersection K)) :
    (Intersection.prepareHit nm hit ray xs).point =
      ray.origin + hit.t • ray.direction +
        nm.epsilon • (Intersection.prepareHit nm hit ray xs).normalVector ∧
    (Intersection.prepareHit nm hit ray xs).point =
      (Intersection.prepareHit nm hit ray xs).overPoint ∧
    (Intersection.prepareHit nm hit ray xs).eyeVector = - ray.direction ∧
    (Intersection.prepareHit nm hit ray xs).t = hit.t ∧
    (Intersection.prepareHit nm hit ray xs).object = hit.object ∧
    (Intersection.prepareHit nm { t := 4, object := testSphere } outsideRay xs).eyeVector =
      make_vector 0 0 (-1) ∧
    (nm.sqrt 1 = 1 →
      (Intersection.prepareHit nm { t := 4, object := testSphere } outsideRay xs).point =
        make_point 0 0 (-1 - nm.epsilon) ∧
      (0 < nm.epsilon → nm.epsilon < 1 / 10 →
        -(11 / 10) <
          (Intersection.prepareHit nm { t := 4, object := testSphere } outsideRay xs).point 2 ∧
        (Intersection.prepareHit nm { t := 4, object := testSphere } outsideRay xs).point 2
          < -1)) := by
  refine ⟨?_, rfl, ?_, rfl, rfl, ?_, ?_⟩
  · funext i
    rw [point_eq_overPoint, overPoint_apply, position_eq]
    simp only [Pi.add_apply, Pi.smul_apply, smul_eq_mul]
    ring
  · funext i
    simp [Intersection.prepareHit]
  · funext i
    fin_cases i <;> simp [Intersection.prepareHit, outsideRay, make_vector]
  · intro hs
    have hp := overPoint_outside nm hs xs
    rw [← point_eq_overPoint] at hp
    refine ⟨hp, ?_⟩
    intro h0 h1
    rw [hp]
    have hz : make_point (0 : K) 0 (-1 - nm.epsilon) 2 = -1 - nm.epsilon := by
      simp [make_point]
    rw [hz]
    constructor <;> linarith

/-- Witness of the amended C8 on `ℚ` with the rational square root and
`ε = 1e-4`: the point of the prepared hit is `(0, 0, -1.0001)`. -/
theorem prepareHit_offset_point_eye_witness :
    ratNumeric.sqrt 1 = 1 ∧ 0 < ratNumeric.epsilon ∧ ratNumeric.epsilon < 1 / 10 ∧
    (Intersection.prepareHit ratNumeric { t := 4, object := testSphere }
      outsideRay []).point = make_point 0 0 (-1 - ratNumeric.epsilon) ∧
    (-(11 / 10) <
        (Intersection.prepareHit ratNumeric { t := 4, object := testSphere }
          outsideRay []).point 2 ∧
      (Intersection.prepareHit ratNumeric { t := 4, object := testSphere }
          outsideRay []).point 2 < -1) :=
  ⟨ratNumeric_sqrt_one, by norm_num [ratNumeric], by norm_num [ratNumeric],
    ((prepareHit_offset_point_eye ratNumeric { t := 4, object := testSphere } outsideRay
      []).2.2.2.2.2.2 ratNumeric_sqrt_one).1,
    ((prepareHit_offset_point_eye ratNumeric { t := 4, object := testSphere } outsideRay
      []).2.2.2.2.2.2 ratNumeric_sqrt_one).2 (by norm_num [ratNumeric])
      (by norm_num [ratNumeric])⟩

theorem dot_product_offset (point n : Tuple K) (e : K) (hn : dot_product n n = 1) :
    dot_product (fun i => point i + n i * e) n = dot_product point n + e ∧
    dot_product (fun i => point i - n i * e) n = dot_product point n - e := by
  simp only [dot_product] at hn ⊢
  constructor
  · linear_combination e * hn
  · linear_combination (-e) * hn

/-- C9: for every prepared hit, `overPoint = point + normalVector * ε` and
`underPoint = point - normalVector * ε` for the one tolerance `ε` of the
numeric environment, where `point` is the ray position `ray.position(t)` of
step 1 and `normalVector` is the eye-facing normal; hence for a unit normal
the component of `overPoint` along the normal exceeds that of the position by
exactly `ε`, and that of `underPoint` is smaller by exactly `ε`.  On the unit
sphere, when the square root of 1 is 1 and `0 < ε < 0.1`, the ray from
`(0, 0, -5)` along `+z` gives an over point with `z` in `(-1.1, -1)` and an
under point with `z` in `(-1, -0.9)`. -/
theorem prepareHit_over_under (nm : Numeric K) (hit : Intersection K) (ray : Ray K)
    (xs : List (Intersection K)) :
    (Intersection.prepareHit nm hit ray xs).overPoint =
      ray.position hit.t +
        nm.epsilon • (Intersection.prepareHit nm hit ray xs).normalVector ∧
    (Intersection.prepareHit nm hit ray xs).underPoint =
      ray.position hit.t -
        nm.epsilon • (Intersection.prepareHit nm hit ray xs).normalVector ∧
    (dot_product (Intersection.prepareHit nm hit ray xs).normalVector
        (Intersection.prepareHit nm hit ray xs).normalVector = 1 →
      dot_product (Intersection.prepareHit nm hit ray xs).overPoint
          (Intersection.prepareHit nm hit ray xs).normalVector =
        dot_product (ray.position hit.t)
          (Intersection.prepareHit nm hit ray xs).normalVector + nm.epsilon ∧
      dot_product (Intersection.prepareHit nm hit ray xs).underPoint
          (Intersection.prepareHit nm hit ray xs).normalVector =
        dot_product (ray.position hit.t)
          (Intersection.prepareHit nm hit ray xs).normalVector - nm.epsilon) ∧
    (nm.sqrt 1 = 1 → 0 < nm.epsilon → nm.epsilon < 1 / 10 →
      (-(11 / 10) <
          (Intersection.prepareHit nm { t := 4, object := testSphere } outsideRay xs).overPoint 2 ∧
        (Intersection.prepareHit nm { t := 4, object := testSphere } outsideRay xs).overPoint 2
          < -1) ∧
      (-1 <
          (Intersection.prepareHit nm { t := 4, object := testSphere } outsideRay xs).underPoint 2 ∧
        (Intersection.prepareHit nm { t := 4, object := testSphere } outsideRay xs).underPoint 2
          < -(9 / 10))) := by
  refine ⟨?_, ?_, ?_, ?_⟩
  · funext i
    rw [overPoint_apply]
    simp only [Pi.add_apply, Pi.smul_apply, smul_eq_mul]
    ring
  · funext i
    rw [underPoint_apply]
    simp only [Pi.sub_apply, Pi.smul_apply, smul_eq_mul]
    ring
  · intro hn
    have hover : (Intersection.prepareHit nm hit ray xs).overPoint =
        fun i => ray.position hit.t i +
          (Intersection.prepareHit nm hit ray xs).normalVector i * nm.epsilon := rfl
    have hunder : (Intersection.prepareHit nm hit ray xs).underPoint =
        fun i => ray.position hit.t i -
          (Intersection.prepareHit nm hit ray xs).normalVector i * nm.epsilon := rfl
    rw [hover, hunder]
    exact dot_product_offset _ _ _ hn
  · intro hs h0 h1
    have hp : (outsideRay (K := K)).position
        ({ t := 4, object := testSphere } : Intersection K).t = make_point 0 0 (-1) :=
      position_outsideRay
    have hover : (Intersection.prepareHit nm { t := 4, object := testSphere }
        outsideRay xs).overPoint 2 = -1 - nm.epsilon := by
      rw [overPoint_apply, (prepared_outside nm hs xs).2, hp]
      simp [make_point, make_vector]
      ring
    have hunder : (Intersection.prepareHit nm { t := 4, object := testSphere }
        outsideRay xs).underPoint 2 = -1 + nm.epsilon := by
      rw [underPoint_apply, (prepared_outside nm hs xs).2, hp]
      simp [make_point, make_vector]
    rw [hover, hunder]
    refine ⟨⟨?_, ?_⟩, ?_, ?_⟩ <;> linarith

/-- Witness of C9 on `ℚ` with the rational square root and `ε = 1e-4`: the
prepared normal of the outside scenario is a unit vector, and the bounds on
the two offset points hold. -/
theorem prepareHit_over_under_witness :
    dot_product
        (Intersection.prepareHit ratNumeric { t := 4, object := testSphere }
          outsideRay []).normalVector
        (Intersection.prepareHit ratNumeric { t := 4, object := testSphere }
          outsideRay []).normalVector = 1 ∧
    (dot_product
        (Intersection.prepareHit ratNumeric { t := 4, object := testSphere }
          outsideRay []).overPoint
        (Intersection.prepareHit ratNumeric { t := 4, object := testSphere }
          outsideRay []).normalVector =
      dot_product
        ((outsideRay (K := ℚ)).position 4)
        (Intersection.prepareHit ratNumeric { t := 4, object := testSphere }
          outsideRay []).normalVector + ratNumeric.epsilon ∧
     dot_product
        (Intersection.prepareHit ratNumeric { t := 4, object := testSphere }
          outsideRay []).underPoint
        (Intersection.prepareHit ratNumeric { t := 4, object := testSphere }
          outsideRay []).normalVector =
      dot_product
        ((outsideRay (K := ℚ)).position 4)
        (Intersection.prepareHit ratNumeric { t := 4, object := testSphere }
          outsideRay []).normalVector - ratNumeric.epsilon) ∧
    ((-(11 / 10) <
        (Intersection.prepareHit ratNumeric { t := 4, object := testSphere }
          outsideRay []).overPoint 2 ∧
      (Intersection.prepareHit ratNumeric { t := 4, object := testSphere }
          outsideRay []).overPoint 2 < -1) ∧
     (-1 <
        (Intersection.prepareHit ratNumeric { t := 4, object := testSphere }
          outsideRay []).underPoint 2 ∧
      (Intersection.prepareHit ratNumeric { t := 4, object := testSphere }
          outsideRay []).underPoint 2 < -(9 / 10))) :=
  have hunit : dot_product
      (Intersection.prepareHit ratNumeric { t := 4, object := testSphere }
        outsideRay []).normalVector
      (Intersection.prepareHit ratNumeric { t := 4, object := testSphere }
        outsideRay []).normalVector = 1 := by
    rw [(prepared_outside ratNumeric ratNumeric_sqrt_one []).2]
    simp [dot_product, make_vector]
  ⟨hunit,
    (prepareHit_over_under ratNumeric { t := 4, object := testSphere } outsideRay
      []).2.2.1 hunit,
    (prepareHit_over_under ratNumeric { t := 4, object := testSphere } outsideRay
      []).2.2.2 ratNumeric_sqrt_one (by norm_num [ratNumeric]) (by norm_num [ratNumeric])⟩

/-- The reflect vector of the plane scenario, for every slope `s`: whichever
way the prepared normal faces, `(0, -s, s)` is reflected to `(0, s, s)`. -/
theorem reflect_slanted (s : K) (n : Tuple K)
    (hn : n = make_vector 0 1 0 ∨ n = fun i => - make_vector (0 : K) 1 0 i) :
    reflect (make_vector 0 (-s) s) n = make_vector 0 s s := by
  rcases hn with rfl | rfl
  · funext i
    fin_cases i <;> simp [reflect, dot_product, make_vector]
    ring
  · funext i
    fin_cases i <;> simp [reflect, dot_product, make_vector]
    ring

/-- C10: for every prepared hit, `reflectVector = d - 2 * dot(d, n) * n` where
`d` is the ray direction and `n` is the prepared, eye-facing `normalVector`.
On the plane `y = 0`, when the square root of 1 is 1, the direction
`(0, -s, s)` gives the reflect vector `(0, s, s)` for every `s`, `√2/2`
included. -/
theorem prepareHit_reflectVector (nm : Numeric K) (hit : Intersection K) (ray : Ray K)
    (xs : List (Intersection K)) :
    (Intersection.prepareHit nm hit ray xs).reflectVector =
      ray.direction -
        (2 * dot_product ray.direction (Intersection.prepareHit nm hit ray xs).normalVector) •
          (Intersection.prepareHit nm hit ray xs).normalVector ∧
    (nm.sqrt 1 = 1 → ∀ s t : K,
      (Intersection.prepareHit nm { t := t, object := testPlane } (slantedRay s) xs).reflectVector =
        make_vector 0 s s) := by
  constructor
  · funext i
    rw [reflectVector_eq]
    simp only [reflect, Pi.sub_apply, Pi.smul_apply, smul_eq_mul]
  · intro hs s t
    rw [reflectVector_eq]
    apply reflect_slanted
    simp only [Intersection.prepareHit, normalAt_testPlane, normalize_y_axis nm hs]
    split_ifs
    · right; rfl
    · left; rfl

/-- Witness of C10 on `ℝ` with the real square root: on the plane `y = 0` the
direction `(0, -√2/2, √2/2)` at `t = √2` gives the reflect vector
`(0, √2/2, √2/2)`. -/
theorem prepareHit_reflectVector_witness :
    Real.sqrt 1 = 1 ∧
    (Intersection.prepareHit { sqrt := Real.sqrt, epsilon := 1 / 10000 }
        { t := Real.sqrt 2, object := testPlane } (slantedRay (Real.sqrt 2 / 2))
        []).reflectVector =
      make_vector 0 (Real.sqrt 2 / 2) (Real.sqrt 2 / 2) :=
  ⟨Real.sqrt_one,
    (prepareHit_reflectVector { sqrt := Real.sqrt, epsilon := 1 / 10000 }
      { t := Real.sqrt 2, object := testPlane } (slantedRay (Real.sqrt 2 / 2)) []).2
      Real.sqrt_one (Real.sqrt 2 / 2) (Real.sqrt 2)⟩

end PreparedHit

/-! ## Intersecting, normals and equality of shapes -/

section ShapeOperations

variable {K : Type} [LinearOrderedField K]

theorem normalToWorld_root (nm : Numeric K) (s : Shape K) (h : s.parent = none)
    (n : Tuple K) : s.normalToWorld nm n = s.normalStep nm n := by
  cases s
  simp only at h
  subst h
  simp [Shape.normalToWorld, Shape.normalStep]

theorem normalToWorld_child (nm : Numeric K) (s q : Shape K) (h : s.parent = some q)
    (n : Tuple K) : s.normalToWorld nm n = q.normalToWorld nm (s.normalStep nm n) := by
  cases s
  simp only at h
  subst h
  simp [Shape.normalToWorld, Shape.normalStep]

/-- C15: for every shape, with or without a parent, and every world ray `r`,
`intersect(r)` is `localIntersection` applied to `r` transformed by the shape's
own inverse transform only, returned unchanged; two shapes that differ only in
their parent give the same `intersect` result for every ray. -/
theorem intersect_own_inverse_only (s : Shape K) (r : Ray K) (p q : Option (Shape K)) :
    s.intersect r =
      s.localIntersection
        { origin := s.transformationInverse.mulVec r.origin
          direction := s.transformationInverse.mulVec r.direction } ∧
    (s.setParent p).intersect r = (s.setParent q).intersect r ∧
    (s.setParent p).intersect r = s.intersect r :=
  ⟨rfl, rfl, rfl⟩

/-- C16: for every shape and world point `p`,
`normalAt(p) = normalToWorld(localNormalAt(worldToObject(p)))`, and both
conversions go through the whole parent chain: under a parent `q` the point is
first taken to the object space of `q` and the normal is handed to
`q.normalToWorld` after the node's own step.  For the unit sphere with the
identity transform and no parent, when the square root of 1 is 1,
`normalAt((0,0,-1)) = (0,0,-1)`. -/
theorem normalAt_composition (nm : Numeric K) (s : Shape K) (p : Tuple K) :
    s.normalAt nm p = s.normalToWorld nm (s.localNormalAt (s.worldToObject p)) ∧
    (∀ q : Shape K, s.parent = some q →
      s.normalAt nm p =
        q.normalToWorld nm (s.normalStep nm
          (s.localNormalAt (s.transformationInverse.mulVec (q.worldToObject p))))) ∧
    (s.parent = none →
      s.normalAt nm p =
        s.normalStep nm (s.localNormalAt (s.transformationInverse.mulVec p))) ∧
    (nm.sqrt 1 = 1 →
      (testSphere (K := K)).target.normalAt nm (make_point 0 0 (-1)) = make_vector 0 0 (-1)) := by
  refine ⟨rfl, ?_, ?_, ?_⟩
  · intro q hq
    simp only [Shape.normalAt]
    rw [normalToWorld_child nm s q hq, worldToObject_child s q hq]
  · intro hs
    simp only [Shape.normalAt]
    rw [normalToWorld_root nm s hs, worldToObject_root s hs]
  · intro hs
    rw [normalAt_testSphere]
    simpa [make_point] using normalize_z_axis nm hs (-1) (by norm_num)

/-- Witness of C16 on `ℚ`: the child `movedChild` has the parent `scaledRoot`,
the root `scaledRoot` has none, and the unit sphere has the normal
`(0, 0, -1)` at `(0, 0, -1)`. -/
theorem normalAt_composition_witness :
    movedChild.normalAt ratNumeric (make_point 2 4 6) =
      scaledRoot.normalToWorld ratNumeric (movedChild.normalStep ratNumeric
        (movedChild.localNormalAt
          (movedChild.transformationInverse.mulVec
            (scaledRoot.worldToObject (make_point 2 4 6))))) ∧
    scaledRoot.normalAt ratNumeric (make_point 2 4 6) =
      scaledRoot.normalStep ratNumeric
        (scaledRoot.localNormalAt
          (scaledRoot.transformationInverse.mulVec (make_point 2 4 6))) ∧
    (testSphere (K := ℚ)).target.normalAt ratNumeric (make_point 0 0 (-1)) =
      make_vector 0 0 (-1) :=
  ⟨(normalAt_composition ratNumeric movedChild (make_point 2 4 6)).2.1 scaledRoot rfl,
    (normalAt_composition ratNumeric scaledRoot (make_point 2 4 6)).2.2.1 rfl,
    (normalAt_composition ratNumeric scaledRoot (make_point 2 4 6)).2.2.2
      ratNumeric_sqrt_one⟩

/-- C17: for every two shapes, `a == b` holds if and only if they have the same
concrete kind, equal transformations, equal `casts_shadow` flags, equal
material contents, and the kind-specific `doCompare` returns true; `a != b` is
the negation of `a == b`; and two freshly created default spheres compare
equal. -/
theorem operatorEq_structural (doCompare : Shape K → Shape K → Bool) (a b : Shape K)
    (li : Ray K → List K) (m : Material K) :
    (a.operatorEq doCompare b = true ↔
      a.typeId = b.typeId ∧ a.transformation = b.transformation ∧
        a.casts_shadow = b.casts_shadow ∧ a.material = b.material ∧
        doCompare a b = true) ∧
    a.operatorNe doCompare b = !(a.operatorEq doCompare b) ∧
    (createSphere li m).operatorEq Shape.doCompare (createSphere li m) = true := by
  refine ⟨?_, rfl, ?_⟩
  · simp only [Shape.operatorEq, Bool.and_eq_true, decide_eq_true_eq]
    tauto
  · simp [Shape.operatorEq, Shape.doCompare]

theorem ratNumeric_sqrt_mul_self (q : ℚ) (hq : 0 ≤ q) : ratNumeric.sqrt (q * q) = q := by
  have h := Rat.sqrt_eq q
  rw [abs_of_nonneg hq] at h
  exact h

theorem invert_translation_three :
    invert (translation (3 : ℚ) 0 0) = translation (-3) 0 0 := by
  apply invert_eq_of_mul_eq_one
  ext i j
  fin_cases i <;> fin_cases j <;>
    simp [translation, Matrix.mul_apply, Fin.sum_univ_four, Matrix.vecHead, Matrix.vecTail]

theorem adoptedSphere_worldToObject :
    adoptedSphere.worldToObject (make_point 3 4 0) = make_point 0 4 0 := by
  rw [worldToObject_child adoptedSphere shiftedShape rfl,
    worldToObject_root shiftedShape rfl]
  have h1 : shiftedShape.transformationInverse = translation (-3) 0 0 :=
    invert_translation_three
  have h2 : adoptedSphere.transformationInverse = 1 := rfl
  rw [h1, h2, Matrix.one_mulVec]
  funext i
  fin_cases i <;>
    simp [translation, make_point, Matrix.mulVec, Matrix.dotProduct, Fin.sum_univ_four,
      Matrix.vecHead, Matrix.vecTail]

theorem plainSphere_worldToObject (p : Tuple ℚ) : plainSphere.worldToObject p = p := by
  rw [worldToObject_root plainSphere rfl]
  have h2 : plainSphere.transformationInverse = 1 := rfl
  rw [h2, Matrix.one_mulVec]

theorem plainSphere_normalAt_x :
    plainSphere.normalAt ratNumeric (make_point 3 4 0) 0 = 3 / 5 := by
  have hs : ratNumeric.sqrt 25 = 5 := by
    have h := ratNumeric_sqrt_mul_self 5 (by norm_num)
    norm_num at h
    exact h
  have h := normalAt_testSphere ratNumeric (make_point (3 : ℚ) 4 0)
  have ht : (testSphere (K := ℚ)).target = plainSphere := rfl
  rw [ht] at h
  rw [h]
  simp [Raytracer.normalize, magnitude, dot_product, make_vector, make_point]
  norm_num [hs]

theorem adoptedSphere_normalAt_x :
    adoptedSphere.normalAt ratNumeric (make_point 3 4 0) 0 = 0 := by
  have hT : shiftedShape.transformationInverseTranspose =
      transpose (translation (-3) 0 0) := by
    show transpose (invert (translation (3 : ℚ) 0 0)) = _
    rw [invert_translation_three]
  simp only [Shape.normalAt]
  rw [adoptedSphere_worldToObject, normalToWorld_child ratNumeric adoptedSphere shiftedShape rfl,
    normalToWorld_root ratNumeric shiftedShape rfl]
  simp only [Shape.normalStep, hT]
  simp [Raytracer.normalize, make_vector, transpose, translation, Matrix.mulVec,
    Matrix.dotProduct, Fin.sum_univ_four, Matrix.vecHead, Matrix.vecTail,
    adoptedSphere, plainSphere, Shape.setParent, createSphere, Shape.create, make_point]
/-- C19: equality ignores the parent.  For every two shapes `a`, `b` and all
parents `p`, `q`, when the kind-specific `doCompare` does not read the parent,
`a == b` has the same result after `a.setParent(p)` and `b.setParent(q)` as
before; and two shapes that compare equal can have different `worldToObject`
and `normalAt` results. -/
theorem operatorEq_ignores_parent (doCompare : Shape K → Shape K → Bool)
    (hdc : ∀ (a b : Shape K) (p q : Option (Shape K)),
      doCompare (a.setParent p) (b.setParent q) = doCompare a b)
    (a b : Shape K) (p q : Option (Shape K)) :
    (a.setParent p).operatorEq doCompare (b.setParent q) = a.operatorEq doCompare b ∧
    (adoptedSphere.operatorEq Shape.doCompare plainSphere = true ∧
      adoptedSphere.worldToObject (make_point 3 4 0) ≠
        plainSphere.worldToObject (make_point 3 4 0) ∧
      adoptedSphere.normalAt ratNumeric (make_point 3 4 0) ≠
        plainSphere.normalAt ratNumeric (make_point 3 4 0)) := by
  refine ⟨?_, ?_, ?_, ?_⟩
  · simp only [Shape.operatorEq, hdc]
    rfl
  · simp [Shape.operatorEq, Shape.doCompare, adoptedSphere, plainSphere, Shape.setParent,
      createSphere, Shape.create]
  · rw [adoptedSphere_worldToObject, plainSphere_worldToObject]
    intro h
    have h0 := congrFun h 0
    simp [make_point] at h0
  · intro h
    have h0 := congrFun h 0
    rw [adoptedSphere_normalAt_x, plainSphere_normalAt_x] at h0
    norm_num at h0

/-- Witness of C19 with the default `doCompare` of shape.h, which reads
nothing: a sphere and the same sphere under the parent `shiftedShape` compare
equal, before and after. -/
theorem operatorEq_ignores_parent_witness :
    (∀ (a b : Shape ℚ) (p q : Option (Shape ℚ)),
      Shape.doCompare (a.setParent p) (b.setParent q) = Shape.doCompare a b) ∧
    (plainSphere.setParent (some shiftedShape)).operatorEq Shape.doCompare
        (plainSphere.setParent none) =
      plainSphere.operatorEq Shape.doCompare plainSphere ∧
    plainSphere.operatorEq Shape.doCompare plainSphere = true :=
  ⟨fun _ _ _ _ => rfl,
    (operatorEq_ignores_parent Shape.doCompare (fun _ _ _ _ => rfl) plainSphere plainSphere
      (some shiftedShape) none).1,
    by simp [Shape.operatorEq, Shape.doCompare]⟩

/-- C20: `setTransformation` changes only the transform and its two cached
matrices: after `setTransformation(T)` the material, the parent and the
`casts_shadow` flag, and the geometry of the concrete kind, are what they were
before; and the three overloads leave the shape in the same state for the same
`T`. -/
theorem setTransformation_frame (s : Shape K) (t : Transformation K) :
    ((s.setTransformation t).material = s.material ∧
      (s.setTransformation t).parent = s.parent ∧
      (s.setTransformation t).casts_shadow = s.casts_shadow ∧
      (s.setTransformation t).typeId = s.typeId ∧
      (s.setTransformation t).localIntersection = s.localIntersection ∧
      (s.setTransformation t).localNormalAt = s.localNormalAt) ∧
    s.setTransformationConstRef t = s.setTransformation t ∧
    s.setTransformationRef t = s.setTransformation t ∧
    s.setTransformation t =
      { s with
        transformation := t
        transformationInverse := invert t
        transformationInverseTranspose := transpose (invert t) } :=
  ⟨⟨rfl, rfl, rfl, rfl, rfl, rfl⟩, rfl, rfl, rfl⟩

end ShapeOperations

/-! ## The parent pointer: cycles -/

section ParentCycles

variable {K : Type}

theorem setParent_parent_self (sc : Scene K) (s : Nat) (p : Option Nat) :
    (sc.setParent s p s).parent = p := by
  simp [Scene.setParent]

theorem setParent_parent_other (sc : Scene K) (s a : Nat) (p : Option Nat) (h : a ≠ s) :
    (sc.setParent s p a).parent = (sc a).parent := by
  simp [Scene.setParent, h]

theorem setTransformation_parent [Field K] (sc : Scene K) (s a : Nat) (t : Transformation K) :
    (sc.setTransformation s t a).parent = (sc a).parent := by
  unfold Scene.setTransformation
  split_ifs with h
  · rw [h]
  · rfl

/-- A chain that does not pass through `s` is not changed by a `setParent` on
`s`, and still ends at a shape with no parent. -/
theorem grounded_of_avoids (sc : Scene K) (s : Nat) (q : Option Nat) (a : Nat)
    (h : Scene.Avoids sc s a) : Scene.Grounded (sc.setParent s q) a := by
  induction h with
  | root a hne hp =>
    exact Scene.Grounded.root a (by rw [setParent_parent_other sc s a q hne, hp])
  | child a b hne hp _ ih =>
    exact Scene.Grounded.child a b (by rw [setParent_parent_other sc s a q hne, hp]) ih

theorem grounded_clearParent (sc : Scene K) (s : Nat)
    (hall : ∀ a, Scene.Grounded sc a) (a : Nat) :
    Scene.Grounded (sc.setParent s none) a := by
  induction hall a with
  | root a hp =>
    by_cases hs : a = s
    · subst hs
      exact Scene.Grounded.root a (setParent_parent_self sc a none)
    · exact Scene.Grounded.root a (by rw [setParent_parent_other sc s a none hs, hp])
  | child a b hp _ ih =>
    by_cases hs : a = s
    · subst hs
      exact Scene.Grounded.root a (setParent_parent_self sc a none)
    · exact Scene.Grounded.child a b (by rw [setParent_parent_other sc s a none hs, hp]) ih

theorem grounded_setParent (sc : Scene K) (s p : Nat) (hav : Scene.Avoids sc s p)
    (hall : ∀ a, Scene.Grounded sc a) (a : Nat) :
    Scene.Grounded (sc.setParent s (some p)) a := by
  have hp : Scene.Grounded (sc.setParent s (some p)) p := grounded_of_avoids sc s (some p) p hav
  induction hall a with
  | root a hroot =>
    by_cases hs : a = s
    · subst hs
      exact Scene.Grounded.child a p (setParent_parent_self sc a (some p)) hp
    · exact Scene.Grounded.root a (by rw [setParent_parent_other sc s a (some p) hs, hroot])
  | child a b hab _ ih =>
    by_cases hs : a = s
    · subst hs
      exact Scene.Grounded.child a p (setParent_parent_self sc a (some p)) hp
    · exact Scene.Grounded.child a b
        (by rw [setParent_parent_other sc s a (some p) hs, hab]) ih

theorem grounded_setTransformation [Field K] (sc : Scene K) (s : Nat) (t : Transformation K)
    (hall : ∀ a, Scene.Grounded sc a) (a : Nat) :
    Scene.Grounded (sc.setTransformation s t) a := by
  induction hall a with
  | root a hroot =>
    exact Scene.Grounded.root a (by rw [setTransformation_parent, hroot])
  | child a b hab _ ih =>
    exact Scene.Grounded.child a b (by rw [setTransformation_parent, hab]) ih

/-- In a scene reached by guarded calls every parent chain ends. -/
theorem grounded_of_reachableGuarded [Field K] (sc : Scene K) (h : Scene.ReachableGuarded sc) :
    ∀ a, Scene.Grounded sc a := by
  induction h with
  | create => exact fun a => Scene.Grounded.root a rfl
  | clearParent sc s _ ih => exact grounded_clearParent sc s ih
  | setParent sc s p _ hav ih => exact grounded_setParent sc s p hav ih
  | setTransformation sc s t _ ih => exact grounded_setTransformation sc s t ih

theorem reachesRoot_of_grounded (sc : Scene K) (a : Nat) (h : Scene.Grounded sc a) :
    ∃ steps, Scene.reachesRoot sc steps a = true := by
  induction h with
  | root a hroot => exact ⟨0, by simp [Scene.reachesRoot, hroot]⟩
  | child a b hab _ ih =>
    obtain ⟨n, hn⟩ := ih
    exact ⟨n + 1, by simp [Scene.reachesRoot, hab, hn]⟩

theorem worldToObject_of_grounded [Field K] (sc : Scene K) (a : Nat) (h : Scene.Grounded sc a)
    (point : Tuple K) : ∃ fuel q, Scene.worldToObject sc fuel a point = some q := by
  induction h with
  | root a hroot =>
    exact ⟨1, (sc a).transformationInverse.mulVec point, by simp [Scene.worldToObject, hroot]⟩
  | child a b hab _ ih =>
    obtain ⟨n, q, hn⟩ := ih
    exact ⟨n + 1, (sc a).transformationInverse.mulVec q,
      by simp [Scene.worldToObject, hab, hn]⟩

theorem selfParent_reachesRoot (steps : Nat) :
    Scene.reachesRoot selfParentScene steps 0 = false := by
  have hp : (selfParentScene 0).parent = some 0 := rfl
  induction steps with
  | zero => simp [Scene.reachesRoot, hp]
  | succ n ih => simp [Scene.reachesRoot, hp, ih]

theorem selfParent_worldToObject (fuel : Nat) (point : Tuple ℚ) :
    Scene.worldToObject selfParentScene fuel 0 point = none := by
  have hp : (selfParentScene 0).parent = some 0 := rfl
  induction fuel with
  | zero => rfl
  | succ n ih => simp [Scene.worldToObject, hp, ih]

/-- C18, as stated, fails: `setParent` stores any pointer, so the call
`s->setParent(s)` on a fresh shape gives a reachable scene in which the shape
at address 0 is its own parent; following the parent pointers from it never
reaches a shape with no parent, and `worldToObject` on it does not return
within any number of calls. -/
theorem setParent_self_counterexample :
    Scene.Reachable selfParentScene ∧
    (selfParentScene 0).parent = some 0 ∧
    (∀ steps, Scene.reachesRoot selfParentScene steps 0 = false) ∧
    (∀ fuel point, Scene.worldToObject selfParentScene fuel 0 point = none) ∧
    ¬ (∀ sc : Scene ℚ, Scene.Reachable sc →
        ∀ a, ∃ steps, Scene.reachesRoot sc steps a = true) := by
  have hreach : Scene.Reachable selfParentScene :=
    Scene.Reachable.setParent _ 0 (some 0) Scene.Reachable.create
  refine ⟨hreach, rfl, selfParent_reachesRoot, selfParent_worldToObject, ?_⟩
  intro hall
  obtain ⟨n, hn⟩ := hall selfParentScene hreach 0
  rw [selfParent_reachesRoot n] at hn
  exact Bool.false_ne_true hn

/-- C18, amended: in every scene reached from freshly constructed shapes by
`setTransformation` calls and by `setParent` calls that pass either no parent
or a parent that is not the shape itself and does not have the shape among
its ancestors, following the parent references from any shape reaches a shape
with no parent after finitely many steps, and the recursion of
`worldToObject` returns. -/
theorem guarded_scene_acyclic [Field K] (sc : Scene K) (h : Scene.ReachableGuarded sc) (a : Nat)
    (point : Tuple K) :
    (∃ steps, Scene.reachesRoot sc steps a = true) ∧
    (∃ fuel q, Scene.worldToObject sc fuel a point = some q) :=
  ⟨reachesRoot_of_grounded sc a (grounded_of_reachableGuarded sc h a),
    worldToObject_of_grounded sc a (grounded_of_reachableGuarded sc h a) point⟩

theorem twoShapeScene_guarded : Scene.ReachableGuarded twoShapeScene :=
  Scene.ReachableGuarded.setParent _ 0 1 Scene.ReachableGuarded.create
    (Scene.Avoids.root 1 (by decide) rfl)

/-- Witness of the amended C18 on the scene of two shapes in which the shape at
address 1 is the parent of the shape at address 0: one step leads from 0 to
the root, and `worldToObject` returns within two calls. -/
theorem guarded_scene_acyclic_witness :
    Scene.ReachableGuarded twoShapeScene ∧
    ((∃ steps, Scene.reachesRoot twoShapeScene steps 0 = true) ∧
      (∃ fuel q, Scene.worldToObject twoShapeScene fuel 0 (make_point 1 2 3) = some q)) ∧
    Scene.reachesRoot twoShapeScene 1 0 = true ∧
    Scene.worldToObject twoShapeScene 2 0 (make_point 1 2 3) = some (make_point 1 2 3) :=
  ⟨twoShapeScene_guarded,
    guarded_scene_acyclic twoShapeScene twoShapeScene_guarded 0 (make_point 1 2 3),
    rfl,
    by simp [Scene.worldToObject, twoShapeScene, Scene.setParent, Scene.create]⟩

end ParentCycles

/-! ## Normals along the parent chain -/

section NormalChain

variable {K : Type} [LinearOrderedField K]

theorem onChain_root {F : Type} (P : Shape F → Prop) (s : Shape F) (h : s.parent = none) :
    Shape.OnChain P s ↔ P s := by
  cases s
  simp only at h
  subst h
  simp [Shape.OnChain]

theorem onChain_child {F : Type} (P : Shape F → Prop) (s q : Shape F)
    (h : s.parent = some q) :
    Shape.OnChain P s ↔ (P s ∧ Shape.OnChain P q) := by
  cases s
  simp only at h
  subst h
  simp [Shape.OnChain]

theorem isSqrt_one (nm : Numeric K) (hsqrt : nm.IsSqrt) : nm.sqrt 1 = 1 := by
  obtain ⟨h0, h1⟩ := hsqrt 1 zero_le_one
  nlinarith [h0, h1]

/-- A vector with a non-zero x, y, z part is normalized to a vector of length
one with homogeneous component zero. -/
theorem normalize_vector_unit (nm : Numeric K) (hsqrt : nm.IsSqrt) (a b c : K)
    (h : ¬ (a = 0 ∧ b = 0 ∧ c = 0)) :
    Raytracer.normalize nm (make_vector a b c) 3 = 0 ∧
    dot_product (Raytracer.normalize nm (make_vector a b c))
      (Raytracer.normalize nm (make_vector a b c)) = 1 := by
  have hd : dot_product (make_vector a b c) (make_vector a b c) = a * a + b * b + c * c := by
    simp [dot_product, make_vector]
  have hpos : 0 < a * a + b * b + c * c := by
    by_contra hle
    have hle0 : a * a + b * b + c * c ≤ 0 := not_lt.1 hle
    have ha : a = 0 := by nlinarith [mul_self_nonneg a, mul_self_nonneg b, mul_self_nonneg c]
    have hb : b = 0 := by nlinarith [mul_self_nonneg a, mul_self_nonneg b, mul_self_nonneg c]
    have hc : c = 0 := by nlinarith [mul_self_nonneg a, mul_self_nonneg b, mul_self_nonneg c]
    exact h ⟨ha, hb, hc⟩
  obtain ⟨_, hm⟩ := hsqrt _ (le_of_lt hpos)
  have hm0 : nm.sqrt (a * a + b * b + c * c) ≠ 0 := by
    intro h0
    rw [h0, mul_zero] at hm
    exact (ne_of_gt hpos) hm.symm
  constructor
  · simp [Raytracer.normalize, make_vector]
  · simp only [dot_product, Raytracer.normalize, magnitude, hd]
    simp only [make_vector, Matrix.cons_val_zero, Matrix.cons_val_one, Matrix.head_cons,
      Matrix.cons_val_two, Matrix.tail_cons, Matrix.cons_val_three]
    field_simp
    linear_combination hm.symm

theorem transpose_eq (m : Transformation K) : transpose m = m.transpose := by
  ext i j
  rfl

/-- Under an invertible transform whose last row starts with three zeros, the
inverse transpose takes a vector with a non-zero x, y, z part to a tuple with a
non-zero x, y, z part. -/
theorem inverseTranspose_xyz_ne_zero (s : Shape K) (hs : s.AffineInvertible) (n : Tuple K)
    (hn : ¬ (n 0 = 0 ∧ n 1 = 0 ∧ n 2 = 0)) :
    ¬ ((s.transformationInverseTranspose.mulVec n) 0 = 0 ∧
       (s.transformationInverseTranspose.mulVec n) 1 = 0 ∧
       (s.transformationInverseTranspose.mulVec n) 2 = 0) := by
  obtain ⟨hdet, ⟨h30, h31, h32, _⟩, hinv, hinvT⟩ := hs
  rintro ⟨h0, h1, h2⟩
  have hmul : s.transformation.transpose * s.transformationInverseTranspose = 1 := by
    rw [hinvT, hinv, transpose_eq, ← Matrix.transpose_mul, invert_mul_self _ hdet,
      Matrix.transpose_one]
  have hback : s.transformation.transpose.mulVec (s.transformationInverseTranspose.mulVec n) = n := by
    rw [Matrix.mulVec_mulVec, hmul, Matrix.one_mulVec]
  generalize s.transformationInverseTranspose.mulVec n = u at h0 h1 h2 hback
  apply hn
  refine ⟨?_, ?_, ?_⟩
  · rw [← hback]
    simp [Matrix.mulVec, Matrix.dotProduct, Fin.sum_univ_four, h0, h1, h2, h30]
  · rw [← hback]
    simp [Matrix.mulVec, Matrix.dotProduct, Fin.sum_univ_four, h0, h1, h2, h31]
  · rw [← hback]
    simp [Matrix.mulVec, Matrix.dotProduct, Fin.sum_univ_four, h0, h1, h2, h32]

theorem normalStep_unit (nm : Numeric K) (hsqrt : nm.IsSqrt) (s : Shape K)
    (hs : s.AffineInvertible) (n : Tuple K) (hn : ¬ (n 0 = 0 ∧ n 1 = 0 ∧ n 2 = 0)) :
    s.normalStep nm n 3 = 0 ∧
    dot_product (s.normalStep nm n) (s.normalStep nm n) = 1 :=
  normalize_vector_unit nm hsqrt _ _ _ (inverseTranspose_xyz_ne_zero s hs n hn)

theorem xyz_ne_zero_of_unit (r : Tuple K) (hw : r 3 = 0) (hr : dot_product r r = 1) :
    ¬ (r 0 = 0 ∧ r 1 = 0 ∧ r 2 = 0) := by
  rintro ⟨h0, h1, h2⟩
  simp [dot_product, h0, h1, h2, hw] at hr

theorem normalToWorld_unit_chain (nm : Numeric K) (hsqrt : nm.IsSqrt) :
    ∀ s : Shape K, Shape.OnChain Shape.AffineInvertible s →
      ∀ n : Tuple K, ¬ (n 0 = 0 ∧ n 1 = 0 ∧ n 2 = 0) →
        s.normalToWorld nm n 3 = 0 ∧
        dot_product (s.normalToWorld nm n) (s.normalToWorld nm n) = 1 := by
  refine parent_induction ?_ ?_
  · intro s hroot hchain n hn
    rw [normalToWorld_root nm s hroot]
    exact normalStep_unit nm hsqrt s ((onChain_root _ s hroot).1 hchain) n hn
  · intro s q hsq ih hchain n hn
    obtain ⟨hs, hq⟩ := (onChain_child _ s q hsq).1 hchain
    rw [normalToWorld_child nm s q hsq]
    obtain ⟨hw, hunit⟩ := normalStep_unit nm hsqrt s hs n hn
    exact ih hq _ (xyz_ne_zero_of_unit _ hw hunit)

theorem translation_det_ne_zero (x y z : K) : (translation x y z).det ≠ 0 := by
  apply det_ne_zero_of_mul_eq_one _ (translation (-x) (-y) (-z))
  ext i j
  fin_cases i <;> fin_cases j <;>
    simp [translation, Matrix.mul_apply, Fin.sum_univ_four, Matrix.vecHead, Matrix.vecTail]

theorem scale_det_ne_zero (x y z : K) (hx : x ≠ 0) (hy : y ≠ 0) (hz : z ≠ 0) :
    (scale x y z).det ≠ 0 := by
  apply det_ne_zero_of_mul_eq_one _ (scale x⁻¹ y⁻¹ z⁻¹)
  ext i j
  fin_cases i <;> fin_cases j <;>
    simp [scale, Matrix.mul_apply, Fin.sum_univ_four, Matrix.vecHead, Matrix.vecTail, hx, hy, hz]

theorem memberShape_affineChain :
    Shape.OnChain Shape.AffineInvertible (memberShape (K := K)) := by
  rw [onChain_child _ memberShape groupShape rfl, onChain_root _ groupShape rfl]
  refine ⟨⟨translation_det_ne_zero 0 0 1, ?_, rfl, rfl⟩,
    ⟨scale_det_ne_zero 2 2 2 (by norm_num) (by norm_num) (by norm_num), ?_, rfl, rfl⟩⟩
  · simp [memberShape, Shape.setParent, Shape.setTransformation, translation,
      Matrix.vecHead, Matrix.vecTail]
  · simp [groupShape, Shape.setTransformation, scale, Matrix.vecHead, Matrix.vecTail]

theorem real_isSqrt : (numericWith Real.sqrt).IsSqrt :=
  fun x hx => ⟨Real.sqrt_nonneg x, Real.mul_self_sqrt hx⟩

/-- C14: for every shape whose transform, and whose ancestors' transforms, are
invertible affine maps stored by `setTransformation`, and every object-space
vector `n` with a non-zero x, y, z part (its homogeneous component is not read
and may be 0), `normalToWorld(n)` has homogeneous component 0 and unit length,
when the numeric environment has a true square root; at each node of the chain
the vector is multiplied by that node's inverse transpose, its homogeneous
component is dropped and it is normalized, before it is passed on to the
parent's `normalToWorld`. -/
theorem normalToWorld_unit_normal (nm : Numeric K) (hsqrt : nm.IsSqrt) (s : Shape K)
    (hchain : Shape.OnChain Shape.AffineInvertible s) (n : Tuple K)
    (hn : ¬ (n 0 = 0 ∧ n 1 = 0 ∧ n 2 = 0)) :
    s.normalToWorld nm n 3 = 0 ∧
    dot_product (s.normalToWorld nm n) (s.normalToWorld nm n) = 1 ∧
    magnitude nm (s.normalToWorld nm n) = 1 ∧
    (s.parent = none → s.normalToWorld nm n = s.normalStep nm n) ∧
    (∀ q : Shape K, s.parent = some q →
      s.normalToWorld nm n = q.normalToWorld nm (s.normalStep nm n)) ∧
    s.normalStep nm n =
      Raytracer.normalize nm
        (make_vector ((s.transformationInverseTranspose.mulVec n) 0)
          ((s.transformationInverseTranspose.mulVec n) 1)
          ((s.transformationInverseTranspose.mulVec n) 2)) := by
  obtain ⟨hw, hunit⟩ := normalToWorld_unit_chain nm hsqrt s hchain n hn
  refine ⟨hw, hunit, ?_, fun h => normalToWorld_root nm s h n,
    fun q h => normalToWorld_child nm s q h n, rfl⟩
  rw [magnitude, hunit]
  exact isSqrt_one nm hsqrt

/-- Witness of C14 on `ℝ` with the real square root: the child `memberShape`
(moved by 1 along z) of `groupShape` (scaled by 2) and the vector `(0, 0, 1)`. -/
theorem normalToWorld_unit_normal_witness :
    (numericWith Real.sqrt).IsSqrt ∧
    Shape.OnChain Shape.AffineInvertible (memberShape (K := ℝ)) ∧
    ¬ ((make_vector (0 : ℝ) 0 1) 0 = 0 ∧ (make_vector (0 : ℝ) 0 1) 1 = 0 ∧
        (make_vector (0 : ℝ) 0 1) 2 = 0) ∧
    (memberShape (K := ℝ)).normalToWorld (numericWith Real.sqrt) (make_vector 0 0 1) 3 = 0 ∧
    dot_product
      ((memberShape (K := ℝ)).normalToWorld (numericWith Real.sqrt) (make_vector 0 0 1))
      ((memberShape (K := ℝ)).normalToWorld (numericWith Real.sqrt) (make_vector 0 0 1)) = 1 :=
  have hn : ¬ ((make_vector (0 : ℝ) 0 1) 0 = 0 ∧ (make_vector (0 : ℝ) 0 1) 1 = 0 ∧
      (make_vector (0 : ℝ) 0 1) 2 = 0) := by
    simp [make_vector]
  ⟨real_isSqrt, memberShape_affineChain, hn,
    (normalToWorld_unit_normal (numericWith Real.sqrt) real_isSqrt memberShape
      memberShape_affineChain (make_vector 0 0 1) hn).1,
    (normalToWorld_unit_normal (numericWith Real.sqrt) real_isSqrt memberShape
      memberShape_affineChain (make_vector 0 0 1) hn).2.1⟩

end NormalChain

/-! ## The Schlick reflectance -/

section Schlick

variable {K : Type} [LinearOrderedField K]

theorem schlick_eq (nm : Numeric K) (h : Hit K) (a b : K) (h1 : h.n1 = some a)
    (h2 : h.n2 = some b) :
    h.schlick nm = some (schlickValue nm (dot_product h.eyeVector h.normalVector) a b) := by
  simp [Hit.schlick, h1, h2]

theorem schlickValue_total (nm : Numeric K) (cos a b : K) (hab : a > b)
    (hsin : (a / b) ^ 2 * (1 - cos ^ 2) > 1) : schlickValue nm cos a b = 1 := by
  simp [schlickValue, hab, hsin]

theorem schlickValue_otherwise (nm : Numeric K) (cos a b : K)
    (h : ¬ (a > b ∧ (a / b) ^ 2 * (1 - cos ^ 2) > 1)) :
    schlickValue nm cos a b =
      ((a - b) / (a + b)) ^ 2 +
        (1 - ((a - b) / (a + b)) ^ 2) *
          (1 - (if a > b then nm.sqrt (1 - (a / b) ^ 2 * (1 - cos ^ 2)) else cos)) ^ 5 := by
  simp only [schlickValue]
  rw [if_neg h]

theorem dot_product_comm (a b : Tuple K) : dot_product a b = dot_product b a := by
  simp only [dot_product]
  ring

/-- The Cauchy-Schwarz inequality for the dot product of tuples. -/
theorem dot_product_sq_le (a b : Tuple K) :
    dot_product a b ^ 2 ≤ dot_product a a * dot_product b b := by
  have hid : dot_product a a * dot_product b b - dot_product a b ^ 2 =
      (a 0 * b 1 - a 1 * b 0) ^ 2 + (a 0 * b 2 - a 2 * b 0) ^ 2 +
      (a 0 * b 3 - a 3 * b 0) ^ 2 + (a 1 * b 2 - a 2 * b 1) ^ 2 +
      (a 1 * b 3 - a 3 * b 1) ^ 2 + (a 2 * b 3 - a 3 * b 2) ^ 2 := by
    simp only [dot_product]
    ring
  have hnn : 0 ≤ dot_product a a * dot_product b b - dot_product a b ^ 2 := by
    rw [hid]
    positivity
  linarith

theorem r0_bounds (a b : K) (ha : 0 < a) (hb : 0 < b) :
    0 ≤ ((a - b) / (a + b)) ^ 2 ∧ ((a - b) / (a + b)) ^ 2 ≤ 1 := by
  have hab : 0 < a + b := add_pos ha hb
  refine ⟨sq_nonneg _, ?_⟩
  have h1 : (a - b) / (a + b) ≤ 1 := by
    rw [div_le_one hab]
    linarith
  have h2 : -1 ≤ (a - b) / (a + b) := by
    rw [le_div_iff₀ hab]
    linarith
  nlinarith

theorem blend_bounds (r0 c : K) (hr0 : 0 ≤ r0) (hr1 : r0 ≤ 1) (hc0 : 0 ≤ c) (hc1 : c ≤ 1) :
    0 ≤ r0 + (1 - r0) * (1 - c) ^ 5 ∧ r0 + (1 - r0) * (1 - c) ^ 5 ≤ 1 := by
  have hx0 : 0 ≤ 1 - c := by linarith
  have hx1 : 1 - c ≤ 1 := by linarith
  have hp0 : 0 ≤ (1 - c) ^ 5 := pow_nonneg hx0 5
  have hp1 : (1 - c) ^ 5 ≤ 1 := pow_le_one₀ hx0 hx1
  constructor
  · nlinarith [mul_nonneg (sub_nonneg.2 hr1) hp0]
  · nlinarith [mul_nonneg (sub_nonneg.2 hr1) (sub_nonneg.2 hp1)]

/-- The reflectance formula stays between 0 and 1 for positive indices and a
cosine between 0 and 1, when the environment has a true square root. -/
theorem schlickValue_bounds (nm : Numeric K) (hsqrt : nm.IsSqrt) (cos a b : K)
    (ha : 0 < a) (hb : 0 < b) (hc0 : 0 ≤ cos) (hc1 : cos ≤ 1) :
    0 ≤ schlickValue nm cos a b ∧ schlickValue nm cos a b ≤ 1 := by
  obtain ⟨hr0, hr1⟩ := r0_bounds a b ha hb
  by_cases htir : a > b ∧ (a / b) ^ 2 * (1 - cos ^ 2) > 1
  · rw [schlickValue_total nm cos a b htir.1 htir.2]
    exact ⟨zero_le_one, le_refl _⟩
  · rw [schlickValue_otherwise nm cos a b htir]
    by_cases hab : a > b
    · rw [if_pos hab]
      have hsin1 : (a / b) ^ 2 * (1 - cos ^ 2) ≤ 1 := by
        by_contra hgt
        exact htir ⟨hab, not_le.1 hgt⟩
      have hsin0 : 0 ≤ (a / b) ^ 2 * (1 - cos ^ 2) := by
        apply mul_nonneg (sq_nonneg _)
        nlinarith
      obtain ⟨hs0, hs2⟩ := hsqrt (1 - (a / b) ^ 2 * (1 - cos ^ 2)) (by linarith)
      have hs1 : nm.sqrt (1 - (a / b) ^ 2 * (1 - cos ^ 2)) ≤ 1 := by
        by_contra hgt
        have hgt1 := not_le.1 hgt
        nlinarith
      exact blend_bounds _ _ hr0 hr1 hs0 hs1
    · rw [if_neg hab]
      exact blend_bounds _ _ hr0 hr1 hc0 hc1

theorem prepared_normal_faces_eye (nm : Numeric K) (hit : Intersection K) (ray : Ray K)
    (xs : List (Intersection K)) :
    0 ≤ dot_product (Intersection.prepareHit nm hit ray xs).normalVector
      (Intersection.prepareHit nm hit ray xs).eyeVector := by
  simp only [Intersection.prepareHit, decide_eq_true_eq]
  split_ifs with h
  · rw [dot_product_neg_left]
    exact le_of_lt (neg_pos.2 h)
  · exact not_lt.1 h

theorem eyeVector_unit (nm : Numeric K) (hit : Intersection K) (ray : Ray K)
    (xs : List (Intersection K)) (hd : dot_product ray.direction ray.direction = 1) :
    dot_product (Intersection.prepareHit nm hit ray xs).eyeVector
      (Intersection.prepareHit nm hit ray xs).eyeVector = 1 := by
  have he : (Intersection.prepareHit nm hit ray xs).eyeVector = fun i => - ray.direction i := rfl
  rw [he]
  simp only [dot_product] at hd ⊢
  linear_combination hd

/-- The cosine a prepared hit hands to the formula lies between 0 and 1 when
the ray direction and the prepared normal are unit vectors. -/
theorem prepared_cos_bounds (nm : Numeric K) (hit : Intersection K) (ray : Ray K)
    (xs : List (Intersection K)) (hd : dot_product ray.direction ray.direction = 1)
    (hn : dot_product (Intersection.prepareHit nm hit ray xs).normalVector
      (Intersection.prepareHit nm hit ray xs).normalVector = 1) :
    0 ≤ dot_product (Intersection.prepareHit nm hit ray xs).eyeVector
        (Intersection.prepareHit nm hit ray xs).normalVector ∧
    dot_product (Intersection.prepareHit nm hit ray xs).eyeVector
        (Intersection.prepareHit nm hit ray xs).normalVector ≤ 1 := by
  have h0 := prepared_normal_faces_eye nm hit ray xs
  rw [dot_product_comm] at h0
  refine ⟨h0, ?_⟩
  have hcs := dot_product_sq_le (Intersection.prepareHit nm hit ray xs).eyeVector
    (Intersection.prepareHit nm hit ray xs).normalVector
  rw [eyeVector_unit nm hit ray xs hd, hn] at hcs
  nlinarith

theorem normalAt_glassSphere (nm : Numeric K) (p : Tuple K) :
    (glassSphere (K := K)).target.normalAt nm p =
      Raytracer.normalize nm (make_vector (p 0) (p 1) (p 2)) := by
  simp [Shape.normalAt, glassSphere, createGlassSphere, createSphere, Shape.create,
    Shape.worldToObject, Shape.normalToWorld, make_point]

theorem prepared_normal_eq (nm : Numeric K) (hit : Intersection K) (ray : Ray K)
    (xs : List (Intersection K)) :
    (Intersection.prepareHit nm hit ray xs).normalVector =
      if dot_product (hit.object.target.normalAt nm (ray.position hit.t))
          (fun i => - ray.direction i) < 0 then
        fun i => - hit.object.target.normalAt nm (ray.position hit.t) i
      else hit.object.target.normalAt nm (ray.position hit.t) := by
  simp only [Intersection.prepareHit, decide_eq_true_eq]

theorem prepared_eye_eq (nm : Numeric K) (hit : Intersection K) (ray : Ray K)
    (xs : List (Intersection K)) :
    (Intersection.prepareHit nm hit ray xs).eyeVector = fun i => - ray.direction i := rfl

/-- The prepared hit of the total internal reflection scenario, for every `s`
with `0 < s` and `s * s = 1/2`: the ray leaves glass for vacuum and the cosine
of the eye and normal vectors is `s`. -/
theorem prepared_inner (nm : Numeric K) (hs1 : nm.sqrt 1 = 1) (s : K) (hpos : 0 < s)
    (hsq : s * s = 1 / 2) :
    (Intersection.prepareHit nm (innerHit s) (innerRay s) (innerList s)).n1 = some (3 / 2) ∧
    (Intersection.prepareHit nm (innerHit s) (innerRay s) (innerList s)).n2 = some 1 ∧
    dot_product (Intersection.prepareHit nm (innerHit s) (innerRay s) (innerList s)).eyeVector
      (Intersection.prepareHit nm (innerHit s) (innerRay s) (innerList s)).normalVector = s := by
  have hne : ¬ (-s = s) := by
    intro h
    linarith
  have hN : (glassSphere (K := K)).target.normalAt nm ((innerRay s).position s) =
      make_vector 0 s s := by
    rw [normalAt_glassSphere]
    have hm : nm.sqrt (s * s + s * s) = 1 := by
      rw [hsq]
      norm_num
      exact hs1
    funext i
    fin_cases i <;>
      simp [Raytracer.normalize, magnitude, dot_product, make_vector, make_point, Ray.position,
        innerRay, hm]
  refine ⟨?_, ?_, ?_⟩
  · simp [Intersection.prepareHit, innerList, innerHit, refractiveIndices, Intersection.isHit,
      hne, topRefractiveIndex, containersStep, glassSphere, createGlassSphere, createSphere,
      Shape.create]
  · simp [Intersection.prepareHit, innerList, innerHit, refractiveIndices, Intersection.isHit,
      hne, topRefractiveIndex, containersStep, glassSphere]
  · rw [prepared_normal_eq, prepared_eye_eq]
    simp only [innerHit]
    rw [hN]
    have hlt : dot_product (make_vector 0 s s) (fun i => - (innerRay s).direction i) < 0 := by
      simp [dot_product, make_vector, innerRay, hpos]
    rw [if_pos hlt]
    simp [dot_product, make_vector, innerRay]

/-- C11: for every prepared hit with `n1 > n2` and
`(n1/n2)^2 * (1 - cos^2) > 1`, where `cos = dot(eyeVector, normalVector)`,
`schlick` returns exactly 1.0.  On the glass sphere of index 1.5, when the
square root of 1 is 1, the ray from `(0, 0, s)` along `+y` with the hit at
`t = s` and the list `[-s, s]` is such a hit for every `s > 0` with
`s * s = 1/2`, `√2/2` included. -/
theorem schlick_total_internal_reflection (nm : Numeric K) :
    (∀ (hit : Intersection K) (ray : Ray K) (xs : List (Intersection K)) (a b : K),
      (Intersection.prepareHit nm hit ray xs).n1 = some a →
      (Intersection.prepareHit nm hit ray xs).n2 = some b →
      a > b →
      (a / b) ^ 2 *
        (1 - dot_product (Intersection.prepareHit nm hit ray xs).eyeVector
          (Intersection.prepareHit nm hit ray xs).normalVector ^ 2) > 1 →
      (Intersection.prepareHit nm hit ray xs).schlick nm = some 1) ∧
    (nm.sqrt 1 = 1 → ∀ s : K, 0 < s → s * s = 1 / 2 →
      (Intersection.prepareHit nm (innerHit s) (innerRay s) (innerList s)).schlick nm =
        some 1) := by
  have hgen : ∀ (hit : Intersection K) (ray : Ray K) (xs : List (Intersection K)) (a b : K),
      (Intersection.prepareHit nm hit ray xs).n1 = some a →
      (Intersection.prepareHit nm hit ray xs).n2 = some b →
      a > b →
      (a / b) ^ 2 *
        (1 - dot_product (Intersection.prepareHit nm hit ray xs).eyeVector
          (Intersection.prepareHit nm hit ray xs).normalVector ^ 2) > 1 →
      (Intersection.prepareHit nm hit ray xs).schlick nm = some 1 := by
    intro hit ray xs a b h1 h2 hab hsin
    rw [schlick_eq nm _ a b h1 h2, schlickValue_total nm _ a b hab hsin]
  refine ⟨hgen, ?_⟩
  intro hs1 s hpos hsq
  obtain ⟨h1, h2, hcos⟩ := prepared_inner nm hs1 s hpos hsq
  apply hgen _ _ _ (3 / 2) 1 h1 h2 (by norm_num)
  rw [hcos, pow_two s, hsq]
  norm_num

theorem sqrt_two_half_pos : (0 : ℝ) < Real.sqrt 2 / 2 := by
  have h : (0 : ℝ) < Real.sqrt 2 := Real.sqrt_pos.2 (by norm_num)
  linarith

theorem sqrt_two_half_sq : Real.sqrt 2 / 2 * (Real.sqrt 2 / 2) = 1 / 2 := by
  have h : Real.sqrt 2 * Real.sqrt 2 = 2 := Real.mul_self_sqrt (by norm_num)
  linear_combination h / 4

/-- Witness of C11 on `ℝ` with the real square root: the scenario of the test,
`s = √2/2`, has `n1 = 1.5 > n2 = 1` and `sin2_t = 9/8 > 1`, and its
reflectance is 1. -/
theorem schlick_total_internal_reflection_witness :
    (Intersection.prepareHit (numericWith Real.sqrt) (innerHit (Real.sqrt 2 / 2))
        (innerRay (Real.sqrt 2 / 2)) (innerList (Real.sqrt 2 / 2))).n1 = some (3 / 2) ∧
    (Intersection.prepareHit (numericWith Real.sqrt) (innerHit (Real.sqrt 2 / 2))
        (innerRay (Real.sqrt 2 / 2)) (innerList (Real.sqrt 2 / 2))).n2 = some 1 ∧
    ((3 / 2 : ℝ) / 1) ^ 2 *
        (1 - dot_product
          (Intersection.prepareHit (numericWith Real.sqrt) (innerHit (Real.sqrt 2 / 2))
            (innerRay (Real.sqrt 2 / 2)) (innerList (Real.sqrt 2 / 2))).eyeVector
          (Intersection.prepareHit (numericWith Real.sqrt) (innerHit (Real.sqrt 2 / 2))
            (innerRay (Real.sqrt 2 / 2)) (innerList (Real.sqrt 2 / 2))).normalVector ^ 2) > 1 ∧
    (Intersection.prepareHit (numericWith Real.sqrt) (innerHit (Real.sqrt 2 / 2))
        (innerRay (Real.sqrt 2 / 2)) (innerList (Real.sqrt 2 / 2))).schlick
        (numericWith Real.sqrt) = some 1 :=
  have hp := prepared_inner (numericWith Real.sqrt) Real.sqrt_one (Real.sqrt 2 / 2)
    sqrt_two_half_pos sqrt_two_half_sq
  have hsin : ((3 / 2 : ℝ) / 1) ^ 2 *
      (1 - dot_product
        (Intersection.prepareHit (numericWith Real.sqrt) (innerHit (Real.sqrt 2 / 2))
          (innerRay (Real.sqrt 2 / 2)) (innerList (Real.sqrt 2 / 2))).eyeVector
        (Intersection.prepareHit (numericWith Real.sqrt) (innerHit (Real.sqrt 2 / 2))
          (innerRay (Real.sqrt 2 / 2)) (innerList (Real.sqrt 2 / 2))).normalVector ^ 2) > 1 := by
    rw [hp.2.2, pow_two (Real.sqrt 2 / 2), sqrt_two_half_sq]
    norm_num
  ⟨hp.1, hp.2.1, hsin,
    (schlick_total_internal_reflection (numericWith Real.sqrt)).1 _ _ _ (3 / 2) 1 hp.1 hp.2.1
      (by norm_num) hsin⟩

/-- The prepared hit of the perpendicular scenario: glass to vacuum, and the
cosine of the eye and normal vectors is 1. -/
theorem prepared_centre (nm : Numeric K) (hs1 : nm.sqrt 1 = 1) :
    (Intersection.prepareHit nm centreHit centreRay centreList).n1 = some (3 / 2) ∧
    (Intersection.prepareHit nm centreHit centreRay centreList).n2 = some 1 ∧
    dot_product (Intersection.prepareHit nm centreHit centreRay centreList).eyeVector
      (Intersection.prepareHit nm centreHit centreRay centreList).normalVector = 1 ∧
    dot_product (Intersection.prepareHit nm centreHit centreRay centreList).normalVector
      (Intersection.prepareHit nm centreHit centreRay centreList).normalVector = 1 := by
  have hne : ¬ ((-1 : K) = 1) := by norm_num
  have hN : (glassSphere (K := K)).target.normalAt nm ((centreRay (K := K)).position 1) =
      make_vector 0 1 0 := by
    rw [normalAt_glassSphere]
    funext i
    fin_cases i <;>
      simp [Raytracer.normalize, magnitude, dot_product, make_vector, make_point, Ray.position,
        centreRay, hs1]
  have hlt : dot_product (make_vector (0 : K) 1 0)
      (fun i => - (centreRay (K := K)).direction i) < 0 := by
    simp [dot_product, make_vector, centreRay]
  have hnv : (Intersection.prepareHit nm centreHit centreRay centreList).normalVector =
      fun i => - make_vector (0 : K) 1 0 i := by
    rw [prepared_normal_eq]
    simp only [centreHit]
    rw [hN, if_pos hlt]
  refine ⟨?_, ?_, ?_, ?_⟩
  · simp [Intersection.prepareHit, centreList, centreHit, refractiveIndices, Intersection.isHit,
      hne, topRefractiveIndex, containersStep, glassSphere, createGlassSphere, createSphere,
      Shape.create]
  · simp [Intersection.prepareHit, centreList, centreHit, refractiveIndices, Intersection.isHit,
      hne, topRefractiveIndex, containersStep, glassSphere]
  · rw [hnv, prepared_eye_eq]
    simp [dot_product, make_vector, centreRay]
  · rw [hnv]
    simp [dot_product, make_vector]

/-- The prepared hit of the small-angle scenario: vacuum to glass, and the
cosine of the eye and normal vectors is `0.1411 / m`, where `m` is the square
root of `1.00000921`, the length of the vector from the centre to the point. -/
theorem prepared_grazing (nm : Numeric K) (hsqrt : nm.IsSqrt) :
    (Intersection.prepareHit nm grazingHit grazingRay [grazingHit]).n1 = some 1 ∧
    (Intersection.prepareHit nm grazingHit grazingRay [grazingHit]).n2 = some (3 / 2) ∧
    dot_product (Intersection.prepareHit nm grazingHit grazingRay [grazingHit]).eyeVector
      (Intersection.prepareHit nm grazingHit grazingRay [grazingHit]).normalVector =
        1411 / 10000 / nm.sqrt (100000921 / 100000000) := by
  obtain ⟨hm0, hmm⟩ := hsqrt (100000921 / 100000000) (by norm_num)
  have hmpos : 0 < nm.sqrt (100000921 / 100000000) := by
    rcases lt_or_eq_of_le hm0 with h | h
    · exact h
    · rw [← h] at hmm
      norm_num at hmm
  have hpos : (grazingRay (K := K)).position (18589 / 10000) =
      make_point 0 (99 / 100) (-(1411 / 10000)) := by
    funext i
    fin_cases i <;> simp [Ray.position, grazingRay, make_point, make_vector]
    norm_num
  have hd : dot_product (make_vector (0 : K) (99 / 100) (-(1411 / 10000)))
      (make_vector (0 : K) (99 / 100) (-(1411 / 10000))) = 100000921 / 100000000 := by
    simp [dot_product, make_vector]
    norm_num
  have hN : (glassSphere (K := K)).target.normalAt nm
      ((grazingRay (K := K)).position (18589 / 10000)) =
      fun i => make_vector (0 : K) (99 / 100) (-(1411 / 10000)) i /
        nm.sqrt (100000921 / 100000000) := by
    rw [normalAt_glassSphere, hpos]
    have hv : make_vector ((make_point (0 : K) (99 / 100) (-(1411 / 10000))) 0)
        ((make_point (0 : K) (99 / 100) (-(1411 / 10000))) 1)
        ((make_point (0 : K) (99 / 100) (-(1411 / 10000))) 2) =
        make_vector (0 : K) (99 / 100) (-(1411 / 10000)) := rfl
    rw [hv]
    funext i
    simp only [Raytracer.normalize, magnitude, hd]
  have hge : ¬ dot_product (fun i => make_vector (0 : K) (99 / 100) (-(1411 / 10000)) i /
        nm.sqrt (100000921 / 100000000))
      (fun i => - (grazingRay (K := K)).direction i) < 0 := by
    simp [dot_product, make_vector, grazingRay]
    rw [neg_div]
    exact neg_nonpos.2 (div_nonneg (by norm_num) hm0)
  refine ⟨?_, ?_, ?_⟩
  · simp [Intersection.prepareHit, grazingHit, refractiveIndices, Intersection.isHit,
      topRefractiveIndex]
  · simp [Intersection.prepareHit, grazingHit, refractiveIndices, Intersection.isHit,
      topRefractiveIndex, containersStep, glassSphere, createGlassSphere, createSphere,
      Shape.create]
  · rw [prepared_normal_eq, prepared_eye_eq]
    simp only [grazingHit]
    rw [hN, if_neg hge]
    simp [dot_product, make_vector, grazingRay]
    ring

/-- C12: for every prepared hit produced by `prepareHit` with unit ray
direction, unit normal and positive refractive indices `n1`, `n2`, when the
numeric environment has a true square root, `schlick` returns a value `r` with
`0 ≤ r ≤ 1`. -/
theorem schlick_unit_interval (nm : Numeric K) (hsqrt : nm.IsSqrt) (hit : Intersection K)
    (ray : Ray K) (xs : List (Intersection K)) (a b : K)
    (h1 : (Intersection.prepareHit nm hit ray xs).n1 = some a)
    (h2 : (Intersection.prepareHit nm hit ray xs).n2 = some b)
    (ha : 0 < a) (hb : 0 < b)
    (hd : dot_product ray.direction ray.direction = 1)
    (hn : dot_product (Intersection.prepareHit nm hit ray xs).normalVector
      (Intersection.prepareHit nm hit ray xs).normalVector = 1) :
    ∃ r, (Intersection.prepareHit nm hit ray xs).schlick nm = some r ∧ 0 ≤ r ∧ r ≤ 1 := by
  obtain ⟨hc0, hc1⟩ := prepared_cos_bounds nm hit ray xs hd hn
  exact ⟨_, schlick_eq nm _ a b h1 h2, schlickValue_bounds nm hsqrt _ a b ha hb hc0 hc1⟩

theorem centreRay_unit : dot_product (centreRay (K := K)).direction
    (centreRay (K := K)).direction = 1 := by
  simp [dot_product, centreRay, make_vector]

/-- Witness of C12 on `ℝ` with the real square root, at the prepared hit of the
perpendicular scenario: `n1 = 1.5`, `n2 = 1`, unit direction and unit normal. -/
theorem schlick_unit_interval_witness :
    (numericWith Real.sqrt).IsSqrt ∧
    (Intersection.prepareHit (numericWith Real.sqrt) centreHit centreRay centreList).n1 =
      some (3 / 2) ∧
    (Intersection.prepareHit (numericWith Real.sqrt) centreHit centreRay centreList).n2 =
      some 1 ∧
    dot_product (centreRay (K := ℝ)).direction (centreRay (K := ℝ)).direction = 1 ∧
    dot_product
      (Intersection.prepareHit (numericWith Real.sqrt) centreHit centreRay centreList).normalVector
      (Intersection.prepareHit (numericWith Real.sqrt) centreHit centreRay centreList).normalVector
        = 1 ∧
    ∃ r : ℝ,
      (Intersection.prepareHit (numericWith Real.sqrt) centreHit centreRay centreList).schlick
        (numericWith Real.sqrt) = some r ∧ 0 ≤ r ∧ r ≤ 1 :=
  have hp := prepared_centre (numericWith Real.sqrt) Real.sqrt_one
  ⟨real_isSqrt, hp.1, hp.2.1, centreRay_unit, hp.2.2.2,
    schlick_unit_interval (numericWith Real.sqrt) real_isSqrt centreHit centreRay centreList
      (3 / 2) 1 hp.1 hp.2.1 (by norm_num) (by norm_num) centreRay_unit hp.2.2.2⟩

theorem schlick_perpendicular (nm : Numeric K) (hs1 : nm.sqrt 1 = 1) (h : Hit K) (a b : K)
    (h1 : h.n1 = some a) (h2 : h.n2 = some b)
    (hcos : dot_product h.eyeVector h.normalVector = 1) :
    h.schlick nm = some (((a - b) / (a + b)) ^ 2) := by
  rw [schlick_eq nm h a b h1 h2, hcos]
  have hno : ¬ (a > b ∧ (a / b) ^ 2 * (1 - (1 : K) ^ 2) > 1) := by
    rintro ⟨_, hgt⟩
    norm_num at hgt
  rw [schlickValue_otherwise nm 1 a b hno]
  have hc : (if a > b then nm.sqrt (1 - (a / b) ^ 2 * (1 - (1 : K) ^ 2)) else 1) = 1 := by
    split_ifs
    · norm_num
      exact hs1
    · rfl
  rw [hc]
  norm_num

/-- The reflectance of the small-angle scenario lies within 1e-5 of 0.48873. -/
theorem schlick_grazing (nm : Numeric K) (hsqrt : nm.IsSqrt) :
    ∃ r, (Intersection.prepareHit nm grazingHit grazingRay [grazingHit]).schlick nm = some r ∧
      48872 / 100000 < r ∧ r < 48874 / 100000 := by
  obtain ⟨h1, h2, hcos⟩ := prepared_grazing nm hsqrt
  obtain ⟨hm0, hmm⟩ := hsqrt (100000921 / 100000000) (by norm_num)
  refine ⟨_, schlick_eq nm _ 1 (3 / 2) h1 h2, ?_⟩
  rw [hcos]
  have hno : ¬ ((1 : K) > 3 / 2 ∧
      ((1 : K) / (3 / 2)) ^ 2 *
        (1 - (1411 / 10000 / nm.sqrt (100000921 / 100000000)) ^ 2) > 1) := by
    rintro ⟨hgt, _⟩
    norm_num at hgt
  rw [schlickValue_otherwise nm _ 1 (3 / 2) hno, if_neg (by norm_num)]
  generalize nm.sqrt (100000921 / 100000000) = m at hm0 hmm
  have hm1 : 1 ≤ m := by
    by_contra hlt
    have hlt1 := not_le.1 hlt
    nlinarith
  have hm2 : m ≤ 100001 / 100000 := by
    by_contra hgt
    have hgt1 := not_le.1 hgt
    nlinarith
  have hmpos : 0 < m := lt_of_lt_of_le zero_lt_one hm1
  have hc1 : 1411 / 10000 / m ≤ 1411 / 10000 := div_le_self (by norm_num) hm1
  have hc2 : 14110 / 100001 ≤ 1411 / 10000 / m := by
    have h := div_le_div_of_nonneg_left (show (0 : K) ≤ 1411 / 10000 by norm_num) hmpos hm2
    have he : (1411 / 10000 : K) / (100001 / 100000) = 14110 / 100001 := by norm_num
    rw [he] at h
    exact h
  have hx1 : 8589 / 10000 ≤ 1 - 1411 / 10000 / m := by linarith
  have hx2 : 1 - 1411 / 10000 / m ≤ 85891 / 100001 := by linarith
  have hp1 := pow_le_pow_left₀ (show (0 : K) ≤ 8589 / 10000 by norm_num) hx1 5
  have hp2 := pow_le_pow_left₀ (le_trans (show (0 : K) ≤ 8589 / 10000 by norm_num) hx1) hx2 5
  have hr0 : (((1 : K) - 3 / 2) / (1 + 3 / 2)) ^ 2 = 1 / 25 := by norm_num
  rw [hr0]
  have hlo : (48872 / 100000 : K) < 1 / 25 + (1 - 1 / 25) * (8589 / 10000) ^ 5 := by norm_num
  have hhi : (1 / 25 : K) + (1 - 1 / 25) * (85891 / 100001) ^ 5 < 48874 / 100000 := by norm_num
  constructor
  · nlinarith
  · nlinarith

/-- C13: for every prepared hit that is not in total internal reflection,
`schlick` returns `r0 + (1 - r0) * (1 - c)^5` with
`r0 = ((n1 - n2)/(n1 + n2))^2`, where `c = dot(eyeVector, normalVector)` when
`n1 ≤ n2` and `c = sqrt(1 - (n1/n2)^2 * (1 - dot^2))` when `n1 > n2`; at
perpendicular viewing (`dot = 1`), when the square root of 1 is 1, it returns
exactly `r0`.  On the glass sphere of index 1.5 the ray from the origin along
`+y` with the hit at `t = 1` gives 0.04, and, with a true square root, the ray
from `(0, 0.99, -2)` along `+z` with the hit at `t = 1.8589` gives a value
within 1e-5 of 0.48873. -/
theorem schlick_formula (nm : Numeric K) :
    (∀ (hit : Intersection K) (ray : Ray K) (xs : List (Intersection K)) (a b : K),
      (Intersection.prepareHit nm hit ray xs).n1 = some a →
      (Intersection.prepareHit nm hit ray xs).n2 = some b →
      ¬ (a > b ∧
        (a / b) ^ 2 *
          (1 - dot_product (Intersection.prepareHit nm hit ray xs).eyeVector
            (Intersection.prepareHit nm hit ray xs).normalVector ^ 2) > 1) →
      (Intersection.prepareHit nm hit ray xs).schlick nm =
        some (((a - b) / (a + b)) ^ 2 +
          (1 - ((a - b) / (a + b)) ^ 2) *
            (1 - (if a > b then
                nm.sqrt (1 - (a / b) ^ 2 *
                  (1 - dot_product (Intersection.prepareHit nm hit ray xs).eyeVector
                    (Intersection.prepareHit nm hit ray xs).normalVector ^ 2))
              else
                dot_product (Intersection.prepareHit nm hit ray xs).eyeVector
                  (Intersection.prepareHit nm hit ray xs).normalVector)) ^ 5)) ∧
    (nm.sqrt 1 = 1 →
      ∀ (hit : Intersection K) (ray : Ray K) (xs : List (Intersection K)) (a b : K),
        (Intersection.prepareHit nm hit ray xs).n1 = some a →
        (Intersection.prepareHit nm hit ray xs).n2 = some b →
        dot_product (Intersection.prepareHit nm hit ray xs).eyeVector
          (Intersection.prepareHit nm hit ray xs).normalVector = 1 →
        (Intersection.prepareHit nm hit ray xs).schlick nm =
          some (((a - b) / (a + b)) ^ 2)) ∧
    (nm.sqrt 1 = 1 →
      (Intersection.prepareHit nm centreHit centreRay centreList).schlick nm = some (1 / 25)) ∧
    (nm.IsSqrt →
      ∃ r, (Intersection.prepareHit nm grazingHit grazingRay [grazingHit]).schlick nm =
          some r ∧
        48872 / 100000 < r ∧ r < 48874 / 100000) := by
  refine ⟨?_, ?_, ?_, schlick_grazing nm⟩
  · intro hit ray xs a b h1 h2 hno
    rw [schlick_eq nm _ a b h1 h2, schlickValue_otherwise nm _ a b hno]
  · intro hs1 hit ray xs a b h1 h2 hcos
    exact schlick_perpendicular nm hs1 _ a b h1 h2 hcos
  · intro hs1
    obtain ⟨h1, h2, hcos, _⟩ := prepared_centre nm hs1
    rw [schlick_perpendicular nm hs1 _ (3 / 2) 1 h1 h2 hcos]
    norm_num

/-- Witness of C13 on `ℝ` with the real square root: the perpendicular scenario
is not in total internal reflection and gives 0.04, and the small-angle
scenario gives a value within 1e-5 of 0.48873. -/
theorem schlick_formula_witness :
    Real.sqrt 1 = 1 ∧ (numericWith Real.sqrt).IsSqrt ∧
    (Intersection.prepareHit (numericWith Real.sqrt) centreHit centreRay centreList).schlick
        (numericWith Real.sqrt) = some ((((3 / 2 : ℝ) - 1) / (3 / 2 + 1)) ^ 2) ∧
    (Intersection.prepareHit (numericWith Real.sqrt) centreHit centreRay centreList).schlick
        (numericWith Real.sqrt) = some (1 / 25) ∧
    (∃ r : ℝ,
      (Intersection.prepareHit (numericWith Real.sqrt) grazingHit grazingRay
        [grazingHit]).schlick (numericWith Real.sqrt) = some r ∧
      48872 / 100000 < r ∧ r < 48874 / 100000) :=
  have hp := prepared_centre (numericWith Real.sqrt) Real.sqrt_one
  ⟨Real.sqrt_one, real_isSqrt,
    (schlick_formula (numericWith Real.sqrt)).2.1 Real.sqrt_one centreHit centreRay centreList
      (3 / 2) 1 hp.1 hp.2.1 hp.2.2.1,
    (schlick_formula (numericWith Real.sqrt)).2.2.1 Real.sqrt_one,
    (schlick_formula (numericWith Real.sqrt)).2.2.2 real_isSqrt⟩

end Schlick

end Raytracer
